import Mathlib

/-!
Verification of the GAS-based graph-framework core against its specification.

The development shallowly embeds the C++ sources:
  * `src/GAS_framework/simple_graph.hpp`  — adjacency-list graph store
  * `src/GAS_framework/async_engine.hpp`  — scheduler / GAS executor
  * `src/GAS_framework/spm_interface.hpp` — scratchpad (SPM) slab manager
  * `src/GAS_framework/new_arch.hpp`      — SPM device model

Pointers in the C++ code are replaced by indices (edge objects live in a
pool `edges`, vertex lists store pool indices), machine integers by `Int`,
and the word-addressable scratchpad by a total map `Int → Int`.
-/

namespace GasFramework

/-! ## Graph store (simple_graph.hpp) -/

/-- A vertex of the adjacency-list graph.  `vid` is the stored id
(`vertex_id_type vid` in the source, an `int`, so it may be negative for
default-constructed placeholders); `out_edges` / `in_edges` hold indices
into the graph's edge pool (the source stores `edge_type*` pointers). -/
structure SGVertex (α : Type) where
  vid : Int
  out_edges : List Nat
  in_edges : List Nat
  vdata : α
deriving Repr, DecidableEq

/-- An edge (`edge_type` in the source): source and target vertex ids,
edge data, and the `has_opposite` flag (true iff the reverse edge exists). -/
structure SGEdge (β : Type) where
  source_vid : Int
  target_vid : Int
  edata : β
  has_opposite : Bool
deriving Repr, DecidableEq

/-- The graph: `vertices` is the vertex table (`std::vector<vertex_type*>`),
`edges` is the heap pool of edge objects (the source allocates them with
`new`; both endpoint lists reference the same object, here the same index). -/
structure SGraph (α β : Type) where
  vertices : List (SGVertex α)
  edges : List (SGEdge β)
deriving Repr, DecidableEq

/-- A default-constructed `vertex_type()`: id is `-1`, no edges, data is
default-constructed.  Used to fill gaps in the vertex table; the source
comment says such a vertex "should never be processed". -/
def placeholder_vertex (α : Type) [Inhabited α] : SGVertex α :=
  ⟨-1, [], [], default⟩

/-- Lookup of `vertices[i]` for an `int` index.  All uses in the verified
paths are in range; out-of-range reads (undefined behaviour in the C++
`operator[]`) are mapped to the placeholder. -/
def vertexAt [Inhabited α] (g : SGraph α β) (i : Int) : SGVertex α :=
  g.vertices.getD i.toNat (placeholder_vertex α)

/-- Embedding of `Graph::add_vertex` (simple_graph.hpp lines 120-133):
reject a negative id; grow the table to `vid+1` filling gaps with
placeholders; reject when `vertices[vid]->id() > 0` (the source's
occupancy test); otherwise overwrite slot `vid` with the new vertex. -/
def add_vertex [Inhabited α] (g : SGraph α β) (vid : Int) (vdata : α) :
    Bool × SGraph α β :=
  if vid < 0 then (false, g)
  else
    let grown := g.vertices ++
      List.replicate (vid.toNat + 1 - g.vertices.length) (placeholder_vertex α)
    let g1 : SGraph α β :=
      if (g.vertices.length : Int) ≤ vid then { g with vertices := grown } else g
    if (vertexAt g1 vid).vid > 0 then (false, g1)
    else (true, { g1 with vertices := g1.vertices.set vid.toNat ⟨vid, [], [], vdata⟩ })

/-- The validity test `add_edge` applies: `source < 0 || source >= size ||
vertices[source]->id() < 0`.  The source evaluates this twice for `source`
and never for `target`. -/
def vid_invalid [Inhabited α] (g : SGraph α β) (v : Int) : Bool :=
  v < 0 || (g.vertices.length : Int) ≤ v || (vertexAt g v).vid < 0

/-- Embedding of `Graph::add_edge` (simple_graph.hpp lines 136-157):
reject self-edges and (twice) an invalid source — the target is never
validated, mirroring the source.  Then scan `vertices[target]->out_edges`
setting `has_opposite` on both the new edge and any opposite edge found,
and append the new edge to `source.out_edges` and `target.in_edges`. -/
def add_edge [Inhabited α] (g : SGraph α β) (source target : Int) (edata : β) :
    Bool × SGraph α β :=
  if source == target || vid_invalid g source || vid_invalid g source then
    (false, g)
  else
    let ei := g.edges.length
    let scan :=
      (vertexAt g target).out_edges.foldl
        (fun (st : Bool × List (SGEdge β)) j =>
          match st.2.get? j with
          | some ej =>
            if (vertexAt g ej.target_vid).vid == source then
              (true, st.2.set j { ej with has_opposite := true })
            else st
          | none => st)
        (false, g.edges)
    let e : SGEdge β :=
      { source_vid := source, target_vid := target, edata := edata,
        has_opposite := scan.1 }
    let vs1 := g.vertices.set source.toNat
      { vertexAt g source with out_edges := (vertexAt g source).out_edges ++ [ei] }
    let vs2 := vs1.set target.toNat
      { vertexAt g target with in_edges := (vertexAt g target).in_edges ++ [ei] }
    (true, { vertices := vs2, edges := scan.2 ++ [e] })

/-- The empty graph (a freshly constructed `Graph`). -/
def empty_graph (α β : Type) : SGraph α β := ⟨[], []⟩

/-- The concrete failing input for the `add_vertex` occupancy bug: insert
id 0, then insert id 0 again with different data. -/
def c2_graph1 : SGraph Int Int := (add_vertex (empty_graph Int Int) 0 10).2

/-- Second insertion at the already-bound id 0. -/
def c2_result : Bool × SGraph Int Int := add_vertex c2_graph1 0 20

/-- C2: `add_vertex(id, data)` must fail when id is already bound — but the
source tests occupancy with `vertices[vid]->id() > 0`, so a second
`add_vertex(0, _)` succeeds and silently overwrites the first vertex's
data.  This theorem evaluates the code at that failing input: the second
call returns `true` and the stored data becomes `20` instead of `10`. -/
theorem add_vertex_overwrites_id_zero :
    (add_vertex (empty_graph Int Int) 0 10).1 = true ∧
    c2_result.1 = true ∧
    (vertexAt c2_result.2 0).vdata = 20 := by
  decide

/-- The concrete failing input for the `add_edge` target-validation bug:
vertices 0 and 2 exist, index 1 is a gap placeholder (id −1). -/
def c4_graph : SGraph Int Int :=
  (add_vertex (add_vertex (empty_graph Int Int) 0 10).2 2 30).2

/-- Adding an edge whose target is the placeholder at index 1. -/
def c4_result : Bool × SGraph Int Int := add_edge c4_graph 0 1 5

/-- C4: `add_edge(src, dst, _)` must fail when the target endpoint is
missing — but the source validates the source vertex twice and never the
target, so an edge into the placeholder at index 1 (id −1) is accepted:
the call returns `true` and the edge is appended to the placeholder's
in-edge list. -/
theorem add_edge_accepts_placeholder_target :
    (vertexAt c4_graph 1).vid = -1 ∧
    c4_result.1 = true ∧
    (vertexAt c4_result.2 1).in_edges = [0] := by
  decide

/-! ## Scheduler state (async_engine.hpp)

The engine state relevant to signalling and job dispatch: the active list
(an `unordered_set<vertex_id_type>` in the source, modelled as a
duplicate-free list whose order models one admissible iteration order of
the unordered set), the per-vertex states, and the gather cache.  The
condition variables and mutexes only block threads; they carry no data and
are not part of the sequential state. -/

/-- The three vertex states of `async_engine::vertex_state_type`. -/
inductive VertexState where
  | FREE
  | SCHEDULED
  | RUNNING
deriving Repr, DecidableEq

/-- Scheduler-visible engine state, indexed by vertex id.  `G` is the
vertex program's `gather_type`. -/
structure EngineState (G : Type) where
  active_list : List Int
  vertex_states : List VertexState
  caching_enabled : Bool
  gather_cache : List G
  has_cache : List Bool
deriving Repr, DecidableEq

/-- Embedding of `async_engine::internal_signal` (async_engine.hpp lines
275-293).  The source receives the vertex object and reads `vertex.id()`;
the embedding takes the id directly.  If the vertex is already active
nothing happens; otherwise a FREE vertex is inserted into the active list,
a SCHEDULED one is skipped, and a RUNNING one raises the
`InvariantViolation` runtime error. -/
def internal_signal (e : EngineState G) (vid : Int) : Except String (EngineState G) :=
  if e.active_list.contains vid then .ok e
  else
    match e.vertex_states.getD vid.toNat .FREE with
    | .FREE => .ok { e with active_list := vid :: e.active_list }
    | .SCHEDULED => .ok e
    | .RUNNING => .error "running vertex signalled. A neighbour must have been running also"

/-- Embedding of `async_engine::internal_clear_gather_cache`
(async_engine.hpp lines 303-309).  The source's guarded statement is
`has_cache[vertex.id()] == false;` — an equality comparison whose value is
discarded, not an assignment — so the state is returned unchanged on both
branches. -/
def internal_clear_gather_cache (e : EngineState G) (vid : Int) : EngineState G :=
  if e.caching_enabled && e.has_cache.getD vid.toNat false then
    let _compared := (e.has_cache.getD vid.toNat false) == false
    e
  else e

/-- Embedding of `async_engine::internal_post_delta` (async_engine.hpp
lines 295-301): add the delta into the cached accumulator when caching is
enabled and a cache entry exists. -/
def internal_post_delta [Add G] (e : EngineState G) (vid : Int) (delta : G) :
    EngineState G :=
  if e.caching_enabled && e.has_cache.getD vid.toNat false then
    { e with gather_cache :=
        e.gather_cache.set vid.toNat (e.gather_cache.getD vid.toNat delta + delta) }
  else e

/-- Embedding of `async_engine::signal_all` (async_engine.hpp lines
316-323): for `i` from 0 to `g.vertices.size() - 1`, insert `i` into the
active list when not already present.  Placeholder indices are not
filtered out. -/
def signal_all (g : SGraph α β) (e : EngineState G) : EngineState G :=
  let al := (List.range g.vertices.length).foldl
    (fun al i => if al.contains (i : Int) then al else al ++ [(i : Int)]) e.active_list
  { e with active_list := al }

/-- Embedding of `async_engine::get_next_job` (async_engine.hpp lines
343-362) for the quiescent single-worker schedule: with the active list
empty the call returns false (`none`); otherwise it pops `*begin()` —
modelled by the list head — and marks the vertex SCHEDULED. -/
def get_next_job (e : EngineState G) : Option (Int × EngineState G) :=
  match e.active_list with
  | [] => none
  | vid :: rest =>
    some (vid, { e with active_list := rest,
                        vertex_states := e.vertex_states.set vid.toNat .SCHEDULED })

/-- Embedding of `async_engine::thread_start` (async_engine.hpp lines
365-404) for one worker running a vertex program that never signals:
repeatedly take a job, acquire the neighbourhood (vertex becomes RUNNING),
execute the program on the popped vid, and release (vertex becomes FREE
again).  The returned list records, in order, the vids on which
`execute_vprog` ran. -/
def run_worker : Nat → EngineState G → List Int → List Int
  | 0, _, acc => acc
  | fuel + 1, e, acc =>
    match get_next_job e with
    | none => acc
    | some (vid, e1) =>
      let e2 := { e1 with vertex_states := e1.vertex_states.set vid.toNat .RUNNING }
      let e3 := { e2 with vertex_states := e2.vertex_states.set vid.toNat .FREE }
      run_worker fuel e3 (acc ++ [vid])

/-- A fresh engine over the C4 gap graph (vertices 0 and 2 bound, index 1
a placeholder): all vertices FREE, caching off. -/
def c1_engine : EngineState Int :=
  ⟨[], List.replicate 3 .FREE, false, [0, 0, 0], List.replicate 3 false⟩

/-- The vids executed by one worker after `signal_all(); start()` on the
gap graph. -/
def c1_executed : List Int := run_worker 4 (signal_all c4_graph c1_engine) []

/-- C1: no vertex program may ever run on a placeholder vertex (id < 0) —
but `signal_all` inserts every index of the vertex table into the active
set, including gap placeholders, so after `signal_all(); start()` the
worker executes `execute_vprog` on index 1 whose stored id is −1. -/
theorem signal_all_executes_placeholder :
    c1_executed = [0, 1, 2] ∧ (vertexAt c4_graph 1).vid < 0 := by
  decide

/-- A concrete engine state with caching enabled and a cache entry for
vertex 0. -/
def c3_engine : EngineState Int := ⟨[], [.FREE], true, [7], [true]⟩

/-- C3: `clear_gather_cache(v)` must set `has_cache[v] = false` — but the
source uses `==` where `=` was intended, so the call leaves the engine
state (in particular `has_cache[0] = true`) unchanged and the cached
accumulator keeps being used. -/
theorem clear_gather_cache_is_noop :
    internal_clear_gather_cache c3_engine 0 = c3_engine ∧
    (internal_clear_gather_cache c3_engine 0).has_cache.getD 0 false = true := by
  decide

/-- C9: `internal_signal` is idempotent.  If the vertex is already in the
active list the call is a no-op returning the state unchanged (whatever
the vertex state); if the vertex is absent and FREE it is inserted into
the active list and nothing else changes. -/
theorem internal_signal_idempotent (e : EngineState G) (vid : Int) :
    (e.active_list.contains vid = true → internal_signal e vid = .ok e) ∧
    (e.active_list.contains vid = false →
      e.vertex_states.getD vid.toNat .FREE = .FREE →
      internal_signal e vid = .ok { e with active_list := vid :: e.active_list }) := by
  constructor
  · intro h
    have h' : vid ∈ e.active_list := by simpa using h
    simp [internal_signal, h']
  · intro h hfree
    have h' : vid ∉ e.active_list := by simpa using h
    simp only [List.getD_eq_getElem?_getD] at hfree
    simp [internal_signal, h', hfree]

/-- Closed instance of `internal_signal_idempotent`: at a state whose
active list already holds vid 0 the call returns the state unchanged, and
at a state with vid 0 absent and FREE it inserts vid 0. -/
theorem internal_signal_idempotent_witness :
    internal_signal (⟨[0], [.FREE], false, [(0 : Int)], [false]⟩ : EngineState Int) 0 =
      .ok ⟨[0], [.FREE], false, [(0 : Int)], [false]⟩ ∧
    internal_signal (⟨[], [.FREE], false, [(0 : Int)], [false]⟩ : EngineState Int) 0 =
      .ok ⟨[0], [.FREE], false, [(0 : Int)], [false]⟩ := by
  constructor
  · exact (internal_signal_idempotent ⟨[0], [.FREE], false, [0], [false]⟩ 0).1 (by decide)
  · exact (internal_signal_idempotent ⟨[], [.FREE], false, [0], [false]⟩ 0).2
      (by decide) (by decide)

/-! ## Gather phase of `execute_vprog` (async_engine.hpp lines 431-572)

The accumulator computation is a pure projection of the gather phase: the
SPM prefetch and eviction calls interleaved with the loop never touch
`accum` or `accum_is_set`, so they are dropped here.  `G` is the
program's `gather_type`, `E` the edge type, `gath e` the value of the
user call `vprog.gather(context, cur, e)`. -/

/-- The edge directions of `graphlab::edge_dir_type`. -/
inductive EdgeDir where
  | NO_EDGES
  | IN_EDGES
  | OUT_EDGES
  | ALL_EDGES
deriving Repr, DecidableEq

/-- One gather loop over an edge list, carried state `(accum_is_set,
accum)`.  Mirrors the loop body: `if (accum_is_set) accum += gather(...)
else { accum = gather(...); accum_is_set = true; }`. -/
def gather_loop (plus : G → G → G) (gath : E → G) (es : List E) (st : Bool × G) :
    Bool × G :=
  es.foldl (fun st e => (true, if st.1 then plus st.2 (gath e) else gath e)) st

/-- The accumulator handed to `apply` on the non-cached path: start from
`(false, gather_type())`, loop over the in-edges when the gather direction
includes them, then over the out-edges. -/
def gather_phase_accum (dflt : G) (plus : G → G → G) (gath : E → G)
    (dir : EdgeDir) (inE outE : List E) : G :=
  let st0 : Bool × G := (false, dflt)
  let st1 := if dir = .IN_EDGES ∨ dir = .ALL_EDGES then gather_loop plus gath inE st0 else st0
  let st2 := if dir = .OUT_EDGES ∨ dir = .ALL_EDGES then gather_loop plus gath outE st1 else st1
  st2.2

/-- The edges of the direction selected by `gather_edges`, in iteration
order (in-edges first, then out-edges). -/
def gather_selected (dir : EdgeDir) (inE outE : List E) : List E :=
  (if dir = .IN_EDGES ∨ dir = .ALL_EDGES then inE else []) ++
    (if dir = .OUT_EDGES ∨ dir = .ALL_EDGES then outE else [])

/-- With the set-flag already true, the gather loop is exactly a left fold
of `plus` over the gathered values. -/
theorem gather_loop_set (plus : G → G → G) (gath : E → G) (es : List E) (a : G) :
    gather_loop plus gath es (true, a) =
      (true, es.foldl (fun a e => plus a (gath e)) a) := by
  induction es generalizing a with
  | nil => rfl
  | cons x xs ih => simp [gather_loop] at ih ⊢; exact ih (plus a (gath x))

/-- Starting from the unset flag with the default accumulator: when the
default is a left identity of `plus`, the loop computes the left fold from
the default. -/
theorem gather_loop_unset (plus : G → G → G) (gath : E → G)
    (dflt : G) (hid : ∀ x, plus dflt x = x) (es : List E) :
    (gather_loop plus gath es (false, dflt)).2 =
      es.foldl (fun a e => plus a (gath e)) dflt := by
  cases es with
  | nil => rfl
  | cons x xs =>
    have h1 : gather_loop plus gath (x :: xs) (false, dflt) =
        gather_loop plus gath xs (true, gath x) := rfl
    rw [h1, gather_loop_set]
    simp [hid (gath x)]

/-- C8: on the non-cached gather path, the value handed to `apply` is the
left fold of `+=` over the user gather results of the selected edges,
starting from the default-constructed `gather_type()` — provided the
default is a left identity of `+=`, which the vertex-program capability
contract (a commutative monoid on a default-constructible `gather_type`)
supplies.  The source writes the first gather result by assignment rather
than `+=`, which agrees with the fold exactly under that identity law. -/
theorem gather_accum_eq_foldl (dflt : G) (plus : G → G → G) (gath : E → G)
    (dir : EdgeDir) (inE outE : List E) (hid : ∀ x, plus dflt x = x) :
    gather_phase_accum dflt plus gath dir inE outE =
      (gather_selected dir inE outE).foldl (fun a e => plus a (gath e)) dflt := by
  cases dir with
  | NO_EDGES => simp [gather_phase_accum, gather_selected]
  | IN_EDGES =>
    simp only [gather_phase_accum, gather_selected]
    simp [gather_loop_unset plus gath dflt hid inE]
  | OUT_EDGES =>
    simp only [gather_phase_accum, gather_selected]
    simp [gather_loop_unset plus gath dflt hid outE]
  | ALL_EDGES =>
    have hsel : gather_selected .ALL_EDGES inE outE = inE ++ outE := by
      simp [gather_selected]
    have hacc : gather_phase_accum dflt plus gath .ALL_EDGES inE outE =
        (gather_loop plus gath outE (gather_loop plus gath inE (false, dflt))).2 := by
      simp [gather_phase_accum]
    rw [hsel, hacc, List.foldl_append]
    cases inE with
    | nil =>
      show (gather_loop plus gath outE (false, dflt)).2 = _
      rw [gather_loop_unset plus gath dflt hid outE]
      rfl
    | cons x xs =>
      have h1 : gather_loop plus gath (x :: xs) ((false, dflt) : Bool × G) =
          gather_loop plus gath xs (true, gath x) := rfl
      rw [h1, gather_loop_set, gather_loop_set]
      have h2 : (x :: xs).foldl (fun a e => plus a (gath e)) dflt =
          xs.foldl (fun a e => plus a (gath e)) (gath x) := by
        simp [hid (gath x)]
      rw [h2]

/-- Closed instance of `gather_accum_eq_foldl` over `Nat` addition (whose
default 0 is a left identity), direction ALL_EDGES, in-edges `[1, 2]` and
out-edges `[3]`. -/
theorem gather_accum_eq_foldl_witness :
    (∀ x : Nat, 0 + x = x) ∧
    gather_phase_accum 0 (· + ·) (fun e => e) .ALL_EDGES [1, 2] [3] =
      (gather_selected .ALL_EDGES [1, 2] [3]).foldl (fun a e => a + e) 0 :=
  ⟨fun x => Nat.zero_add x,
   gather_accum_eq_foldl 0 (· + ·) (fun e => e) .ALL_EDGES [1, 2] [3]
     (fun x => Nat.zero_add x)⟩

/-! ## Scratchpad memory manager (spm_interface.hpp, new_arch.hpp)

The device (new_arch.hpp) is a word array `SPM` of `SPM_SIZE / 8` words
accessed as `SPM[addr / 8]` after asserting 8-alignment; every address
issued by the manager under its invariants is 8-aligned, so the embedding
keys the map by the byte address directly.  Main memory is a second map
keyed by the address tag; a vertex's or edge's `&data()` pointer is
represented by its (non-zero) tag value `t`, and `NBL2SPM` copies
`mem t` into the payload word (`NBL2SPM` copies through `word *`, a full
word).  `SPM2MEM` in the device instead stores through an
`unsigned int *` cast, so for a word-sized payload only the low 32 bits
of the SPM word reach main memory and the upper half of the destination
word keeps its previous contents; the embedding models exactly that
(words as 64-bit two's-complement patterns on the little-endian layout
the source assumes).  The data sizes follow the source's stated assumption
(spm_interface.hpp header comment) that vertex and edge data are one
word, so `v_slot_size = e_slot_size = 16` bytes (tag word + payload
word).  Locks serialize the operations; the embedding is that serial
semantics. -/

/-- SPM byte capacity (`new_arch::SPM_SIZE`). -/
def SPM_SIZE : Int := 256

/-- Metadata addresses and layout constants from spm_interface.hpp. -/
def ADDR_VSLAB_END : Int := 0

/-- Byte address of the vertex-slab free-list head pointer. -/
def ADDR_VEMPTY_HEAD : Int := 8

/-- Byte address of the edge-slab end pointer. -/
def ADDR_ESLAB_END : Int := 16

/-- Byte address of the edge-slab free-list head pointer. -/
def ADDR_EEMPTY_HEAD : Int := 24

/-- First byte of the vertex slab (4 pointer words of metadata precede). -/
def VSLAB_START : Int := 32

/-- The reserved null SPM address. -/
def SPM_NULL : Int := 0

/-- Vertex slot size: `sizeof(vertex_data_type) + sizeof(vertex_data_type *)`. -/
def v_slot_size : Int := 16

/-- Edge slot size: `sizeof(edge_data_type) + sizeof(edge_data_type *)`. -/
def e_slot_size : Int := 16

/-- The state of the scratchpad manager: the SPM word contents (keyed by
byte address), main memory (keyed by address tag), and the
`num_failed_loads` counter. -/
structure SpmState where
  spm : Int → Int
  mem : Int → Int
  num_failed_loads : Int

/-- Synchronous word load `SPM2REG`. -/
def SPM2REG (s : SpmState) (a : Int) : Int := s.spm a

/-- Synchronous word store `REG2SPM`. -/
def REG2SPM (s : SpmState) (a v : Int) : SpmState :=
  { s with spm := fun x => if x = a then v else s.spm x }

/-- Non-blocking store-back `SPM2MEM` of the word at SPM address `a` to
the main-memory location tagged `t` (the reference device model is
synchronous).  The source's loop body is
`*((unsigned int *)mm_addr + i) = SPM[spm_addr / 8 + i]`: a 32-bit store,
so the destination word receives only the low 32 bits of the SPM word
and keeps its own upper half. -/
def SPM2MEM (s : SpmState) (t a : Int) : SpmState :=
  { s with mem := fun x =>
      if x = t then s.mem x - s.mem x % 4294967296 + s.spm a % 4294967296
      else s.mem x }

/-- Helper `internal_load_vdata`: store the tag, then `NBL2SPM` the datum
from main memory into the payload word. -/
def internal_load_vdata (s : SpmState) (t addr : Int) : SpmState :=
  REG2SPM (REG2SPM s addr t) (addr + 8) (s.mem t)

/-- Helper `internal_load_edata`; identical layout for edge slots. -/
def internal_load_edata (s : SpmState) (t addr : Int) : SpmState :=
  REG2SPM (REG2SPM s addr t) (addr + 8) (s.mem t)

/-- The linear scan of `find_vdata`: walk the vertex slab upward from
`cur`, returning the first slot whose tag equals `t` (skipping empty
tags), `SPM_NULL` when `cur` reaches the slab end.  The loop is bounded
by the slab size; fuel 16 covers every state whose slab bounds lie inside
the 256-byte SPM. -/
def find_vdata_loop (s : SpmState) (t : Int) : Nat → Int → Int
  | 0, _ => SPM_NULL
  | fuel + 1, cur =>
    if cur < SPM2REG s ADDR_VSLAB_END then
      if SPM2REG s cur ≠ SPM_NULL ∧ SPM2REG s cur = t then cur
      else find_vdata_loop s t fuel (cur + v_slot_size)
    else SPM_NULL

/-- Embedding of `spm_interface::find_vdata`. -/
def find_vdata (s : SpmState) (t : Int) : Int :=
  find_vdata_loop s t 16 VSLAB_START

/-- The linear scan of `find_edata`: walk the edge slab downward from the
topmost slot. -/
def find_edata_loop (s : SpmState) (t : Int) : Nat → Int → Int
  | 0, _ => SPM_NULL
  | fuel + 1, cur =>
    if SPM2REG s ADDR_ESLAB_END < cur then
      if SPM2REG s cur ≠ SPM_NULL ∧ SPM2REG s cur = t then cur
      else find_edata_loop s t fuel (cur - e_slot_size)
    else SPM_NULL

/-- Embedding of `spm_interface::find_edata`. -/
def find_edata (s : SpmState) (t : Int) : Int :=
  find_edata_loop s t 16 (SPM_SIZE - e_slot_size)

/-- The parent scan both compaction paths run when the last slot of the
slab being compacted is itself an empty slot in mid-list: walk the free
list from `cur` until the node whose link equals `target` is found, then
redirect that link to `target`'s successor; if the walk ends at null,
nothing is written.  The source inlines this loop twice (once per slab)
with identical code. -/
def splice_loop (s : SpmState) (target : Int) : Nat → Int → SpmState
  | 0, _ => s
  | fuel + 1, cur =>
    if cur = SPM_NULL then s
    else if SPM2REG s (cur + 8) = target then
      REG2SPM s (cur + 8) (SPM2REG s (target + 8))
    else splice_loop s target fuel (SPM2REG s (cur + 8))

/-- The free-list fast path of `load_vdata`: pop the vertex free-list
head (advancing `vempty_head` through the payload-field link) and write
the slot there. -/
def load_vdata_pop (s : SpmState) (t : Int) : SpmState :=
  let head := SPM2REG s ADDR_VEMPTY_HEAD
  let tail := SPM2REG s (head + 8)
  internal_load_vdata (REG2SPM s ADDR_VEMPTY_HEAD tail) t head

/-- The slab-extension path of `load_vdata`: bump `vslab_end` by one slot
and write the new slot at the old end. -/
def load_vdata_extend (s : SpmState) (t : Int) : SpmState :=
  let vend := SPM2REG s ADDR_VSLAB_END
  internal_load_vdata (REG2SPM s ADDR_VSLAB_END (vend + v_slot_size)) t vend

/-- The edge-slab compaction path of `load_vdata` (spm_interface.hpp
lines 153-199): free one edge slot — when the last edge slot is itself
empty, unlink it from the edge free list (clearing the head when it is
the head, otherwise scanning for its parent); otherwise pop the edge
free-list head and relocate the last edge slot into it — then shrink
`eslab_end`, extend `vslab_end` and write the new vertex slot. -/
def load_vdata_compact (s : SpmState) (t : Int) : SpmState :=
  let vend := SPM2REG s ADDR_VSLAB_END
  let edge_head := SPM2REG s ADDR_EEMPTY_HEAD
  let edge_end := SPM2REG s ADDR_ESLAB_END
  let end_mm := SPM2REG s (edge_end + e_slot_size)
  let s1 :=
    if end_mm = SPM_NULL then
      if edge_head = edge_end + e_slot_size then
        REG2SPM s ADDR_EEMPTY_HEAD SPM_NULL
      else splice_loop s (edge_end + e_slot_size) 16 edge_head
    else
      let edge_tail := SPM2REG s (edge_head + 8)
      let sa := REG2SPM s ADDR_EEMPTY_HEAD edge_tail
      let end_data := SPM2REG sa (edge_end + e_slot_size + 8)
      let sb := REG2SPM sa edge_head end_mm
      REG2SPM sb (edge_head + 8) end_data
  let s2 := REG2SPM s1 ADDR_ESLAB_END (edge_end + e_slot_size)
  let s3 := REG2SPM s2 ADDR_VSLAB_END (vend + v_slot_size)
  internal_load_vdata s3 t vend

/-- Embedding of `spm_interface::load_vdata` (spm_interface.hpp lines
124-204): reject when already resident; else pop the vertex free list, or
extend the vertex slab when it does not collide with the edge slab, or
compact the edge slab and then extend; on failure bump
`num_failed_loads`. -/
def load_vdata (s : SpmState) (t : Int) : Bool × SpmState :=
  if find_vdata s t ≠ SPM_NULL then (false, s)
  else if SPM2REG s ADDR_VEMPTY_HEAD ≠ SPM_NULL then (true, load_vdata_pop s t)
  else if SPM2REG s ADDR_VSLAB_END + v_slot_size ≤
      SPM2REG s ADDR_ESLAB_END + e_slot_size then (true, load_vdata_extend s t)
  else if SPM2REG s ADDR_EEMPTY_HEAD ≠ SPM_NULL then (true, load_vdata_compact s t)
  else (false, { s with num_failed_loads := s.num_failed_loads + 1 })

/-- The free-list fast path of `load_edata`: pop the edge free-list head
and write the slot there. -/
def load_edata_pop (s : SpmState) (t : Int) : SpmState :=
  let head := SPM2REG s ADDR_EEMPTY_HEAD
  let tail := SPM2REG s (head + 8)
  internal_load_edata (REG2SPM s ADDR_EEMPTY_HEAD tail) t head

/-- The slab-extension path of `load_edata`: lower `eslab_end` by one
slot and write the new slot at the old end. -/
def load_edata_extend (s : SpmState) (t : Int) : SpmState :=
  let eend := SPM2REG s ADDR_ESLAB_END
  internal_load_edata (REG2SPM s ADDR_ESLAB_END (eend - e_slot_size)) t eend

/-- The vertex-slab compaction path of `load_edata` (spm_interface.hpp
lines 308-353), mirroring `load_vdata_compact` with the slabs swapped. -/
def load_edata_compact (s : SpmState) (t : Int) : SpmState :=
  let vertex_head := SPM2REG s ADDR_VEMPTY_HEAD
  let vertex_end := SPM2REG s ADDR_VSLAB_END
  let end_mm := SPM2REG s (vertex_end - v_slot_size)
  let s1 :=
    if end_mm = SPM_NULL then
      if vertex_head = vertex_end - v_slot_size then
        REG2SPM s ADDR_VEMPTY_HEAD SPM_NULL
      else splice_loop s (vertex_end - v_slot_size) 16 vertex_head
    else
      let vertex_tail := SPM2REG s (vertex_head + 8)
      let sa := REG2SPM s ADDR_VEMPTY_HEAD vertex_tail
      let end_data := SPM2REG sa (vertex_end - v_slot_size + 8)
      let sb := REG2SPM sa vertex_head end_mm
      REG2SPM sb (vertex_head + 8) end_data
  let s2 := REG2SPM s1 ADDR_VSLAB_END (vertex_end - v_slot_size)
  let eend2 := SPM2REG s2 ADDR_ESLAB_END
  let s3 := REG2SPM s2 ADDR_ESLAB_END (eend2 - e_slot_size)
  internal_load_edata s3 t eend2

/-- Embedding of `spm_interface::load_edata` (spm_interface.hpp lines
282-356).  The source performs no residency check here (its comment marks
that as an unimplemented TODO): pop the edge free list, or extend the
edge slab downward when it stays above the vertex slab, or compact the
vertex slab and then extend. -/
def load_edata (s : SpmState) (t : Int) : Bool × SpmState :=
  if SPM2REG s ADDR_EEMPTY_HEAD ≠ SPM_NULL then (true, load_edata_pop s t)
  else if SPM2REG s ADDR_ESLAB_END - e_slot_size ≥
      SPM2REG s ADDR_VSLAB_END then (true, load_edata_extend s t)
  else if SPM2REG s ADDR_VEMPTY_HEAD ≠ SPM_NULL then (true, load_edata_compact s t)
  else (false, { s with num_failed_loads := s.num_failed_loads + 1 })

/-- Embedding of `spm_interface::remove_vdata` (spm_interface.hpp lines
212-237): locate the slot, store its payload back to main memory
(`SPM2MEM`), then either shrink the slab (topmost slot) or mark the slot
empty and push it on the vertex free list. -/
def remove_vdata (s : SpmState) (t : Int) : Bool × SpmState :=
  let rm := find_vdata s t
  if rm = SPM_NULL then (false, s)
  else
    let s1 := SPM2MEM s t (rm + 8)
    if rm + v_slot_size = SPM2REG s1 ADDR_VSLAB_END then
      (true, REG2SPM s1 ADDR_VSLAB_END rm)
    else
      let head := SPM2REG s1 ADDR_VEMPTY_HEAD
      let s2 := REG2SPM s1 rm SPM_NULL
      let s3 := REG2SPM s2 (rm + 8) head
      (true, REG2SPM s3 ADDR_VEMPTY_HEAD rm)

/-- Embedding of `spm_interface::remove_edata` (spm_interface.hpp lines
364-389).  The `SPM2MEM` store-back is commented out in the source ("write
backs are eliminated for the hit/miss tests"), so main memory is not
touched: the slot is simply shrunk away or pushed on the edge free list. -/
def remove_edata (s : SpmState) (t : Int) : Bool × SpmState :=
  let rm := find_edata s t
  if rm = SPM_NULL then (false, s)
  else
    if rm - e_slot_size = SPM2REG s ADDR_ESLAB_END then
      (true, REG2SPM s ADDR_ESLAB_END rm)
    else
      let head := SPM2REG s ADDR_EEMPTY_HEAD
      let s2 := REG2SPM s rm SPM_NULL
      let s3 := REG2SPM s2 (rm + 8) head
      (true, REG2SPM s3 ADDR_EEMPTY_HEAD rm)

/-- Embedding of `spm_interface::read_vdata` (spm_interface.hpp lines
244-253).  The method only locks, scans and reads, so the state is passed
through unchanged; the returned triple is (success, `ret_data` after the
call, resulting state). -/
def read_vdata (s : SpmState) (t ret : Int) : Bool × Int × SpmState :=
  let a := find_vdata s t
  if a = SPM_NULL then (false, ret, s) else (true, SPM2REG s (a + 8), s)

/-- Embedding of `spm_interface::read_edata` (spm_interface.hpp lines
396-405), symmetric to `read_vdata`. -/
def read_edata (s : SpmState) (t ret : Int) : Bool × Int × SpmState :=
  let a := find_edata s t
  if a = SPM_NULL then (false, ret, s) else (true, SPM2REG s (a + 8), s)

/-- Embedding of `spm_interface::write_vdata`: overwrite the payload word
of a resident vertex datum. -/
def write_vdata (s : SpmState) (t w : Int) : Bool × SpmState :=
  let a := find_vdata s t
  if a = SPM_NULL then (false, s) else (true, REG2SPM s (a + 8) w)

/-- Embedding of `spm_interface::write_edata`. -/
def write_edata (s : SpmState) (t w : Int) : Bool × SpmState :=
  let a := find_edata s t
  if a = SPM_NULL then (false, s) else (true, REG2SPM s (a + 8) w)

/-- The `spm_interface` constructor (spm_interface.hpp lines 81-86):
initialise the four metadata words over an arbitrary base state (the
device array is allocated uninitialised). -/
def spm_init (base : SpmState) : SpmState :=
  REG2SPM (REG2SPM (REG2SPM (REG2SPM base ADDR_VSLAB_END VSLAB_START)
    ADDR_VEMPTY_HEAD SPM_NULL) ADDR_ESLAB_END (SPM_SIZE - e_slot_size))
    ADDR_EEMPTY_HEAD SPM_NULL

/-- A concrete freshly constructed SPM state: zeroed device words, main
memory holding 7 everywhere, counter 0. -/
def spm_fresh : SpmState := spm_init ⟨fun _ => 0, fun _ => 7, 0⟩

/-- C10: a read of non-resident data fails atomically — `read_vdata` /
`read_edata` return false and leave both the out-parameter and the whole
SPM state unchanged. -/
theorem read_miss_preserves (s : SpmState) (t ret : Int) :
    (find_vdata s t = SPM_NULL → read_vdata s t ret = (false, ret, s)) ∧
    (find_edata s t = SPM_NULL → read_edata s t ret = (false, ret, s)) := by
  constructor
  · intro h; simp [read_vdata, h]
  · intro h; simp [read_edata, h]

/-- Closed instance of `read_miss_preserves`: on the fresh SPM nothing is
resident, so reading tag 100 with `ret_data = 9` fails and returns the
state and out-parameter untouched. -/
theorem read_miss_preserves_witness :
    (find_vdata spm_fresh 100 = SPM_NULL ∧
      read_vdata spm_fresh 100 9 = (false, 9, spm_fresh)) ∧
    (find_edata spm_fresh 100 = SPM_NULL ∧
      read_edata spm_fresh 100 9 = (false, 9, spm_fresh)) :=
  ⟨⟨by decide, (read_miss_preserves spm_fresh 100 9).1 (by decide)⟩,
   ⟨by decide, (read_miss_preserves spm_fresh 100 9).2 (by decide)⟩⟩

/-- The fresh SPM after loading edge datum 100: the topmost edge slot
(byte 240) holds tag 100 with payload `mem 100 = 7`. -/
def c6_s1 : SpmState := (load_edata spm_fresh 100).2

/-- C6 counterexample: the claim says a `load_edata` on already-resident
data returns false and allocates no second slot.  The source has no
residency check in `load_edata`: with datum 100 resident at slot 240, a
second `load_edata(100)` returns true and a second slot (byte 224) now
carries the same tag. -/
theorem load_edata_double_resident :
    find_edata c6_s1 100 ≠ SPM_NULL ∧
    (load_edata c6_s1 100).1 = true ∧
    SPM2REG (load_edata c6_s1 100).2 240 = 100 ∧
    SPM2REG (load_edata c6_s1 100).2 224 = 100 := by
  decide

/-- C6 amended: `load_vdata` on resident data returns false and leaves
the state unchanged; `load_edata` performs no residency check — whenever
its fast path has room (empty free list, no slab collision) it returns
true regardless of residency. -/
theorem load_spec_amended (s : SpmState) (t : Int) :
    (find_vdata s t ≠ SPM_NULL → load_vdata s t = (false, s)) ∧
    (SPM2REG s ADDR_EEMPTY_HEAD = SPM_NULL →
      SPM2REG s ADDR_ESLAB_END - e_slot_size ≥ SPM2REG s ADDR_VSLAB_END →
      (load_edata s t).1 = true) := by
  constructor
  · intro h
    simp [load_vdata, h]
  · intro h1 h2
    simp [load_edata, h1, h2]

/-- Closed instance of `load_spec_amended`: with datum 100 resident in the
vertex slab, `load_vdata` refuses; on the fresh SPM (both free lists
empty, slabs apart) `load_edata` succeeds. -/
theorem load_spec_amended_witness :
    (find_vdata (load_vdata spm_fresh 100).2 100 ≠ SPM_NULL ∧
      load_vdata (load_vdata spm_fresh 100).2 100 =
        (false, (load_vdata spm_fresh 100).2)) ∧
    (load_edata spm_fresh 100).1 = true :=
  ⟨⟨by decide, (load_spec_amended (load_vdata spm_fresh 100).2 100).1 (by decide)⟩,
   (load_spec_amended spm_fresh 100).2 (by decide) (by decide)⟩

/-- The fresh SPM after loading edge datum 100 and overwriting its
resident payload with 42 via `write_edata`. -/
def c5_s2 : SpmState := (write_edata c6_s1 100 42).2

/-- C5 counterexample: the claim says `remove_edata` stores the slot's
payload back to main memory before de-allocating.  With the resident
payload changed to 42, `remove_edata(100)` succeeds but main memory at
tag 100 still holds the original 7 — the store-back call is commented out
in the source. -/
theorem remove_edata_no_writeback :
    SPM2REG c5_s2 (240 + 8) = 42 ∧
    (remove_edata c5_s2 100).1 = true ∧
    (remove_edata c5_s2 100).2.mem 100 = 7 ∧
    (remove_edata c5_s2 100).2.mem 100 ≠ 42 := by
  decide

/-- C5 amended: for non-resident data both removals return false and
change nothing; for resident data both return true.  `remove_vdata`
first issues the store-back of the slot's payload to the main-memory
location `t` — through the device's `unsigned int *` cast, so only the
low 32 bits of the payload are written and the destination word keeps
its upper half — while `remove_edata` leaves main memory entirely
untouched. -/
theorem remove_spec_amended (s : SpmState) (t : Int) :
    (find_vdata s t = SPM_NULL → remove_vdata s t = (false, s)) ∧
    (find_edata s t = SPM_NULL → remove_edata s t = (false, s)) ∧
    (find_vdata s t ≠ SPM_NULL → (remove_vdata s t).1 = true ∧
      (remove_vdata s t).2.mem t =
        s.mem t - s.mem t % 4294967296 +
          SPM2REG s (find_vdata s t + 8) % 4294967296) ∧
    (find_edata s t ≠ SPM_NULL → (remove_edata s t).1 = true ∧
      (remove_edata s t).2.mem = s.mem) := by
  refine ⟨?_, ?_, ?_, ?_⟩
  · intro h
    simp [remove_vdata, h]
  · intro h
    simp [remove_edata, h]
  · intro h
    simp only [remove_vdata, if_neg h]
    constructor
    · split <;> rfl
    · split <;> simp [SPM2MEM, REG2SPM, SPM2REG]
  · intro h
    simp only [remove_edata, if_neg h]
    constructor
    · split <;> rfl
    · split <;> simp [REG2SPM]

/-- Closed instance of `remove_spec_amended`: misses on the fresh SPM for
both kinds, a hit for `remove_vdata` on a loaded vertex datum (the low
32 bits of payload 7 stored back into the word at tag 100), and a hit
for `remove_edata` on a loaded edge datum (main memory untouched). -/
theorem remove_spec_amended_witness :
    remove_vdata spm_fresh 100 = (false, spm_fresh) ∧
    remove_edata spm_fresh 100 = (false, spm_fresh) ∧
    ((remove_vdata (load_vdata spm_fresh 100).2 100).1 = true ∧
      (remove_vdata (load_vdata spm_fresh 100).2 100).2.mem 100 =
        (load_vdata spm_fresh 100).2.mem 100 -
          (load_vdata spm_fresh 100).2.mem 100 % 4294967296 +
          SPM2REG (load_vdata spm_fresh 100).2
            (find_vdata (load_vdata spm_fresh 100).2 100 + 8) % 4294967296) ∧
    ((remove_edata c6_s1 100).1 = true ∧
      (remove_edata c6_s1 100).2.mem = c6_s1.mem) :=
  ⟨(remove_spec_amended spm_fresh 100).1 (by decide),
   (remove_spec_amended spm_fresh 100).2.1 (by decide),
   (remove_spec_amended (load_vdata spm_fresh 100).2 100).2.2.1 (by decide),
   (remove_spec_amended c6_s1 100).2.2.2 (by decide)⟩

/-! ## The slab invariant (spec section 3, "SPM layout")

`SpmInv` is the inductive invariant maintained by the four SPM manager
operations: the two slab ends are slot-aligned and do not overlap
(`vslab_end ≤ eslab_end + e_slot_size`), and each free list is a
duplicate-free chain of empty slots of its own slab threaded through the
payload-field links.  The chain is existentially quantified; slots leaked
by the head-of-list splice case simply drop out of it. -/

/-- Reading after a store: the stored word at the stored address,
otherwise the old contents. -/
theorem SPM2REG_REG2SPM (s : SpmState) (a v x : Int) :
    SPM2REG (REG2SPM s a v) x = if x = a then v else SPM2REG s x := rfl

/-- Stores to SPM leave main memory unchanged. -/
theorem REG2SPM_mem (s : SpmState) (a v : Int) : (REG2SPM s a v).mem = s.mem := rfl

/-- Store-backs to main memory leave the SPM words unchanged. -/
theorem SPM2MEM_spm (s : SpmState) (t a x : Int) :
    SPM2REG (SPM2MEM s t a) x = SPM2REG s x := rfl

/-- `x` is a vertex-slot base address of a slab ending at `ve`: on the
16-byte grid starting at `VSLAB_START` and wholly below `ve`. -/
def isVSlot (ve x : Int) : Prop :=
  ∃ i : Nat, x = VSLAB_START + v_slot_size * i ∧ x + v_slot_size ≤ ve

/-- `x` is an edge-slot base address of a slab ending at `ee`: on the
descending 16-byte grid from the topmost slot, strictly above `ee`. -/
def isESlot (ee x : Int) : Prop :=
  ∃ i : Nat, x = SPM_SIZE - e_slot_size - e_slot_size * i ∧ ee < x

/-- A free list in the scratchpad: `a` points at the first node of `l`,
each node satisfies the slot predicate `P`, carries the empty-marker tag,
and links (through its payload word) to the rest. -/
def FreeChain (s : SpmState) (P : Int → Prop) : Int → List Int → Prop
  | a, [] => a = SPM_NULL
  | a, x :: xs =>
    a = x ∧ P x ∧ SPM2REG s x = SPM_NULL ∧ FreeChain s P (SPM2REG s (x + 8)) xs

/-- Every chain node satisfies the slot predicate and carries tag 0. -/
theorem FreeChain_node {s : SpmState} {P : Int → Prop} :
    ∀ {a : Int} {l : List Int}, FreeChain s P a l →
      ∀ x ∈ l, P x ∧ SPM2REG s x = SPM_NULL := by
  intro a l
  induction l generalizing a with
  | nil => intro _ x hx; cases hx
  | cons y ys ih =>
    intro h x hx
    obtain ⟨rfl, hP, htag, hrest⟩ := h
    rcases List.mem_cons.mp hx with hx | hx
    · subst hx; exact ⟨hP, htag⟩
    · exact ih hrest x hx

/-- Transporting a chain to a state that agrees on all node tag and link
words, weakening the slot predicate along the way. -/
theorem FreeChain_transport {s s' : SpmState} {P Q : Int → Prop} :
    ∀ {a : Int} {l : List Int}, FreeChain s P a l →
      (∀ x ∈ l, SPM2REG s' x = SPM2REG s x) →
      (∀ x ∈ l, SPM2REG s' (x + 8) = SPM2REG s (x + 8)) →
      (∀ x ∈ l, P x → Q x) →
      FreeChain s' Q a l := by
  intro a l
  induction l generalizing a with
  | nil => intro h _ _ _; exact h
  | cons y ys ih =>
    intro h htag hlink hPQ
    obtain ⟨rfl, hP, htag0, hrest⟩ := h
    refine ⟨rfl, hPQ _ (by simp) hP, ?_, ?_⟩
    · rw [htag _ (by simp)]; exact htag0
    · rw [hlink _ (by simp)]
      exact ih hrest (fun x hx => htag x (by simp [hx]))
        (fun x hx => hlink x (by simp [hx])) (fun x hx => hPQ x (by simp [hx]))

/-- The slab invariant: aligned slab ends that never overlap, and a
well-formed free chain per slab. -/
structure SpmInv (s : SpmState) : Prop where
  vAligned : ∃ n : Nat, SPM2REG s ADDR_VSLAB_END = VSLAB_START + v_slot_size * n
  eAligned : ∃ m : Nat,
    SPM2REG s ADDR_ESLAB_END = SPM_SIZE - e_slot_size - e_slot_size * m
  slabs : SPM2REG s ADDR_VSLAB_END ≤ SPM2REG s ADDR_ESLAB_END + e_slot_size
  vChain : ∃ l : List Int, l.Nodup ∧
    FreeChain s (isVSlot (SPM2REG s ADDR_VSLAB_END)) (SPM2REG s ADDR_VEMPTY_HEAD) l
  eChain : ∃ l : List Int, l.Nodup ∧
    FreeChain s (isESlot (SPM2REG s ADDR_ESLAB_END)) (SPM2REG s ADDR_EEMPTY_HEAD) l

/-- The invariant only reads the SPM words, so it survives changes to
main memory and the failure counter. -/
theorem SpmInv_congr {s s' : SpmState} (hspm : s'.spm = s.spm) (h : SpmInv s) :
    SpmInv s' := by
  have hr : ∀ x, SPM2REG s' x = SPM2REG s x := fun x => by
    simp [SPM2REG, hspm]
  obtain ⟨lv, hlvnd, hlv⟩ := h.vChain
  obtain ⟨le, hlend, hle⟩ := h.eChain
  refine ⟨?_, ?_, ?_, ⟨lv, hlvnd, ?_⟩, ⟨le, hlend, ?_⟩⟩
  · rw [hr]; exact h.vAligned
  · rw [hr]; exact h.eAligned
  · rw [hr, hr]; exact h.slabs
  · rw [hr, hr]
    exact FreeChain_transport hlv (fun x _ => hr x) (fun x _ => hr (x + 8))
      (fun x _ hx => hx)
  · rw [hr, hr]
    exact FreeChain_transport hle (fun x _ => hr x) (fun x _ => hr (x + 8))
      (fun x _ hx => hx)

/-- Any successful `find_vdata_loop` scan starting on the vertex-slot
grid returns a grid address below the slab end whose tag is the non-null
value `t`. -/
theorem find_vdata_loop_spec (s : SpmState) (t : Int) :
    ∀ (fuel : Nat) (i : Nat),
      find_vdata_loop s t fuel (VSLAB_START + v_slot_size * i) ≠ SPM_NULL →
      ∃ j : Nat,
        find_vdata_loop s t fuel (VSLAB_START + v_slot_size * i) =
          VSLAB_START + v_slot_size * j ∧
        VSLAB_START + v_slot_size * j < SPM2REG s ADDR_VSLAB_END ∧
        SPM2REG s (VSLAB_START + v_slot_size * j) ≠ SPM_NULL ∧
        SPM2REG s (VSLAB_START + v_slot_size * j) = t := by
  intro fuel
  induction fuel with
  | zero => intro i h; exact absurd rfl h
  | succ fuel ih =>
    intro i h
    rw [find_vdata_loop] at h ⊢
    by_cases hlt : VSLAB_START + v_slot_size * i < SPM2REG s ADDR_VSLAB_END
    · rw [if_pos hlt] at h ⊢
      by_cases hm : SPM2REG s (VSLAB_START + v_slot_size * i) ≠ SPM_NULL ∧
          SPM2REG s (VSLAB_START + v_slot_size * i) = t
      · rw [if_pos hm] at h ⊢
        exact ⟨i, rfl, hlt, hm.1, hm.2⟩
      · rw [if_neg hm] at h ⊢
        have hstep : VSLAB_START + v_slot_size * i + v_slot_size =
            VSLAB_START + v_slot_size * (i + 1 : Nat) := by
          push_cast; ring
        rw [hstep] at h ⊢
        exact ih (i + 1) h
    · rw [if_neg hlt] at h
      exact absurd rfl h

/-- Specification of a successful `find_vdata`: the hit is a vertex-slot
grid address below `vslab_end` tagged with the non-null `t`. -/
theorem find_vdata_spec (s : SpmState) (t : Int) (h : find_vdata s t ≠ SPM_NULL) :
    ∃ j : Nat, find_vdata s t = VSLAB_START + v_slot_size * j ∧
      VSLAB_START + v_slot_size * j < SPM2REG s ADDR_VSLAB_END ∧
      SPM2REG s (VSLAB_START + v_slot_size * j) ≠ SPM_NULL ∧
      SPM2REG s (VSLAB_START + v_slot_size * j) = t := by
  have h0 : VSLAB_START = VSLAB_START + v_slot_size * (0 : Nat) := by
    simp
  rw [find_vdata] at h ⊢
  rw [h0] at h ⊢
  exact find_vdata_loop_spec s t 16 0 h

/-- Any successful `find_edata_loop` scan starting on the edge-slot grid
returns a grid address above the slab end whose tag is the non-null
value `t`. -/
theorem find_edata_loop_spec (s : SpmState) (t : Int) :
    ∀ (fuel : Nat) (i : Nat),
      find_edata_loop s t fuel (SPM_SIZE - e_slot_size - e_slot_size * i) ≠ SPM_NULL →
      ∃ j : Nat,
        find_edata_loop s t fuel (SPM_SIZE - e_slot_size - e_slot_size * i) =
          SPM_SIZE - e_slot_size - e_slot_size * j ∧
        SPM2REG s ADDR_ESLAB_END < SPM_SIZE - e_slot_size - e_slot_size * j ∧
        SPM2REG s (SPM_SIZE - e_slot_size - e_slot_size * j) ≠ SPM_NULL ∧
        SPM2REG s (SPM_SIZE - e_slot_size - e_slot_size * j) = t := by
  intro fuel
  induction fuel with
  | zero => intro i h; exact absurd rfl h
  | succ fuel ih =>
    intro i h
    rw [find_edata_loop] at h ⊢
    by_cases hlt : SPM2REG s ADDR_ESLAB_END < SPM_SIZE - e_slot_size - e_slot_size * i
    · rw [if_pos hlt] at h ⊢
      by_cases hm : SPM2REG s (SPM_SIZE - e_slot_size - e_slot_size * i) ≠ SPM_NULL ∧
          SPM2REG s (SPM_SIZE - e_slot_size - e_slot_size * i) = t
      · rw [if_pos hm] at h ⊢
        exact ⟨i, rfl, hlt, hm.1, hm.2⟩
      · rw [if_neg hm] at h ⊢
        have hstep : SPM_SIZE - e_slot_size - e_slot_size * i - e_slot_size =
            SPM_SIZE - e_slot_size - e_slot_size * (i + 1 : Nat) := by
          push_cast; ring
        rw [hstep] at h ⊢
        exact ih (i + 1) h
    · rw [if_neg hlt] at h
      exact absurd rfl h

/-- Specification of a successful `find_edata`. -/
theorem find_edata_spec (s : SpmState) (t : Int) (h : find_edata s t ≠ SPM_NULL) :
    ∃ j : Nat, find_edata s t = SPM_SIZE - e_slot_size - e_slot_size * j ∧
      SPM2REG s ADDR_ESLAB_END < SPM_SIZE - e_slot_size - e_slot_size * j ∧
      SPM2REG s (SPM_SIZE - e_slot_size - e_slot_size * j) ≠ SPM_NULL ∧
      SPM2REG s (SPM_SIZE - e_slot_size - e_slot_size * j) = t := by
  have h0 : SPM_SIZE - e_slot_size =
      SPM_SIZE - e_slot_size - e_slot_size * (0 : Nat) := by
    simp
  rw [find_edata] at h ⊢
  rw [h0] at h ⊢
  exact find_edata_loop_spec s t 16 0 h

/-- A duplicate-free list of vertex-slot addresses of a slab inside the
256-byte SPM has at most 14 entries, so the splice scan's fuel of 16
always suffices. -/
theorem vslot_nodup_length_le (ve : Int) (hve : ve ≤ 256) (l : List Int)
    (hnd : l.Nodup) (hmem : ∀ x ∈ l, isVSlot ve x) : l.length ≤ 14 := by
  have hsub : l ⊆ (List.range 14).map
      (fun i : Nat => VSLAB_START + v_slot_size * (i : Int)) := by
    intro x hx
    obtain ⟨i, hx1, hx2⟩ := hmem x hx
    simp only [VSLAB_START, v_slot_size] at hx1 hx2
    refine List.mem_map.mpr ⟨i, List.mem_range.mpr ?_, ?_⟩
    · omega
    · simp only [VSLAB_START, v_slot_size]
      omega
  have hlen := List.Subperm.length_le (List.subperm_of_subset hnd hsub)
  simpa using hlen

/-- The edge-slab analogue of `vslot_nodup_length_le`. -/
theorem eslot_nodup_length_le (ee : Int) (hee : 16 ≤ ee) (l : List Int)
    (hnd : l.Nodup) (hmem : ∀ x ∈ l, isESlot ee x) : l.length ≤ 14 := by
  have hsub : l ⊆ (List.range 14).map
      (fun i : Nat => SPM_SIZE - e_slot_size - e_slot_size * (i : Int)) := by
    intro x hx
    obtain ⟨i, hx1, hx2⟩ := hmem x hx
    simp only [SPM_SIZE, e_slot_size] at hx1 hx2
    refine List.mem_map.mpr ⟨i, List.mem_range.mpr ?_, ?_⟩
    · omega
    · simp only [SPM_SIZE, e_slot_size]
      omega
  have hlen := List.Subperm.length_le (List.subperm_of_subset hnd hsub)
  simpa using hlen

/-- Specification of the parent scan: given a well-formed chain from `a`
whose head is not the victim `L`, the scan either removes `L` from the
chain (writing one link field of a chain node) or leaves the state
untouched; the resulting chain never contains `L`, only link fields of
old chain nodes are written, and main memory and the counter are
untouched. -/
theorem splice_spec (s : SpmState) (L : Int) (P : Int → Prop)
    (Hnz : ∀ x, P x → x ≠ SPM_NULL) (Hsep : ∀ x y, P x → P y → x + 8 ≠ y)
    (HL : L ≠ SPM_NULL) :
    ∀ (l : List Int) (fuel : Nat) (a : Int), FreeChain s P a l → l.Nodup →
      a ≠ L → l.length ≤ fuel →
      ∃ l' : List Int, l' ⊆ l ∧ l'.Nodup ∧ L ∉ l' ∧
        FreeChain (splice_loop s L fuel a) P a l' ∧
        (∀ b : Int, (∀ x ∈ l, b ≠ x + 8) →
          SPM2REG (splice_loop s L fuel a) b = SPM2REG s b) ∧
        (splice_loop s L fuel a).mem = s.mem ∧
        (splice_loop s L fuel a).num_failed_loads = s.num_failed_loads := by
  intro l
  induction l with
  | nil =>
    intro fuel a hch hnd haL hlen
    have ha : a = SPM_NULL := hch
    have hres : splice_loop s L fuel a = s := by
      cases fuel with
      | zero => rfl
      | succ fuel => rw [splice_loop, if_pos ha]
    rw [hres]
    exact ⟨[], List.nil_subset _, List.nodup_nil, by simp, ha,
      fun b _ => rfl, rfl, rfl⟩
  | cons q xs ih =>
    intro fuel a hch hnd haL hlen
    obtain ⟨rfl, hPx, htagx, hrest⟩ := hch
    have hxnz : a ≠ SPM_NULL := Hnz a hPx
    have hxnotxs : a ∉ xs := (List.nodup_cons.mp hnd).1
    cases fuel with
    | zero => simp at hlen
    | succ fuel =>
      rw [splice_loop, if_neg hxnz]
      by_cases hlk : SPM2REG s (a + 8) = L
      · rw [if_pos hlk]
        rw [hlk] at hrest
        cases xs with
        | nil => exact absurd hrest HL
        | cons y ys =>
          obtain ⟨hyL, hPy, htagy, hys⟩ := hrest
          subst hyL
          have hxny : a ∉ ys := fun hz => hxnotxs (List.mem_cons_of_mem _ hz)
          have hLny : L ∉ ys := ((List.nodup_cons.mp (hnd.of_cons)).1)
          refine ⟨a :: ys, ?_, ?_, ?_, ?_, ?_, rfl, rfl⟩
          · intro z hz
            rcases List.mem_cons.mp hz with hz | hz
            · simp [hz]
            · simp [List.mem_cons, hz]
          · exact List.nodup_cons.mpr ⟨hxny, (hnd.of_cons).of_cons⟩
          · intro hz
            rcases List.mem_cons.mp hz with hz | hz
            · exact haL hz.symm
            · exact hLny hz
          · refine ⟨rfl, hPx, ?_, ?_⟩
            · rw [SPM2REG_REG2SPM, if_neg (by omega)]
              exact htagx
            · rw [SPM2REG_REG2SPM, if_pos rfl]
              refine FreeChain_transport hys ?_ ?_ (fun _ _ h => h)
              · intro z hz
                have hPz := (FreeChain_node hys z hz).1
                rw [SPM2REG_REG2SPM, if_neg (Ne.symm (Hsep a z hPx hPz))]
              · intro z hz
                have hzx : z ≠ a := fun h => hxny (h ▸ hz)
                rw [SPM2REG_REG2SPM, if_neg (by omega)]
          · intro b hb
            rw [SPM2REG_REG2SPM, if_neg (hb a (by simp))]
      · rw [if_neg hlk]
        obtain ⟨l'', hsub, hnd'', hL'', hch'', hagree'', hmem'', hnfl''⟩ :=
          ih fuel (SPM2REG s (a + 8)) hrest (hnd.of_cons) hlk
            (by simpa using Nat.le_of_succ_le_succ hlen)
        refine ⟨a :: l'', ?_, ?_, ?_, ?_, ?_, hmem'', hnfl''⟩
        · intro z hz
          rcases List.mem_cons.mp hz with hz | hz
          · simp [hz]
          · exact List.mem_cons_of_mem _ (hsub hz)
        · exact List.nodup_cons.mpr ⟨fun h => hxnotxs (hsub h), hnd''⟩
        · intro hz
          rcases List.mem_cons.mp hz with hz | hz
          · exact haL hz.symm
          · exact hL'' hz
        · refine ⟨rfl, hPx, ?_, ?_⟩
          · rw [hagree'' a ?_]
            · exact htagx
            · intro z hz
              have hPz := (FreeChain_node hrest z hz).1
              exact Ne.symm (Hsep z a hPz hPx)
          · rw [hagree'' (a + 8) ?_]
            · exact hch''
            · intro z hz
              have hzx : z ≠ a := fun h => hxnotxs (h ▸ hz)
              omega
        · intro b hb
          exact hagree'' b (fun z hz => hb z (List.mem_cons_of_mem _ hz))

/-- The invariant is preserved by the `load_vdata` free-list fast path. -/
theorem SpmInv_load_vdata_pop (s : SpmState) (t : Int) (h : SpmInv s)
    (hh : SPM2REG s ADDR_VEMPTY_HEAD ≠ SPM_NULL) : SpmInv (load_vdata_pop s t) := by
  obtain ⟨⟨n, hn⟩, ⟨m, hm⟩, hslab, ⟨lv, hlvnd, hlv⟩, ⟨le, hlend, hle⟩⟩ := h
  simp only [ADDR_VSLAB_END, ADDR_VEMPTY_HEAD, ADDR_ESLAB_END, ADDR_EEMPTY_HEAD,
    VSLAB_START, SPM_SIZE, SPM_NULL, v_slot_size, e_slot_size] at hn hm hslab hlv hle hh
  cases lv with
  | nil => exact absurd hlv hh
  | cons x xs =>
    obtain ⟨hax, hPx, htagx, hrest⟩ := hlv
    obtain ⟨i, hxi, hxlt⟩ := hPx
    simp only [VSLAB_START, v_slot_size] at hxi hxlt
    have hxnotxs : x ∉ xs := (List.nodup_cons.mp hlvnd).1
    have hstate : load_vdata_pop s t =
        REG2SPM (REG2SPM (REG2SPM s 8 (SPM2REG s (x + 8))) x t) (x + 8) (s.mem t) := by
      simp only [load_vdata_pop, internal_load_vdata, ADDR_VEMPTY_HEAD]
      rw [hax]
      rfl
    have hread : ∀ b : Int, b ≠ 8 → b ≠ x → b ≠ x + 8 →
        SPM2REG (load_vdata_pop s t) b = SPM2REG s b := by
      intro b h1 h2 h3
      rw [hstate]
      simp only [SPM2REG_REG2SPM]
      rw [if_neg h3, if_neg h2, if_neg h1]
    have hv8 : SPM2REG (load_vdata_pop s t) 8 = SPM2REG s (x + 8) := by
      rw [hstate]
      simp only [SPM2REG_REG2SPM]
      rw [if_neg (by omega), if_neg (by omega)]
      simp
    refine ⟨⟨n, ?_⟩, ⟨m, ?_⟩, ?_, ⟨xs, (List.nodup_cons.mp hlvnd).2, ?_⟩,
      ⟨le, hlend, ?_⟩⟩
    · simp only [ADDR_VSLAB_END, VSLAB_START, v_slot_size]
      rw [hread 0 (by omega) (by omega) (by omega)]
      exact hn
    · simp only [ADDR_ESLAB_END, SPM_SIZE, e_slot_size]
      rw [hread 16 (by omega) (by omega) (by omega)]
      exact hm
    · simp only [ADDR_VSLAB_END, ADDR_ESLAB_END, e_slot_size]
      rw [hread 0 (by omega) (by omega) (by omega),
        hread 16 (by omega) (by omega) (by omega)]
      exact hslab
    · simp only [ADDR_VSLAB_END, ADDR_VEMPTY_HEAD]
      rw [hread 0 (by omega) (by omega) (by omega), hv8]
      refine FreeChain_transport hrest ?_ ?_ (fun z _ hp => hp)
      · intro z hz
        obtain ⟨⟨j, hzj, hzlt⟩, htagz⟩ := FreeChain_node hrest z hz
        simp only [VSLAB_START, v_slot_size] at hzj hzlt
        have hzx : z ≠ x := fun q => hxnotxs (q ▸ hz)
        exact hread z (by omega) hzx (by omega)
      · intro z hz
        obtain ⟨⟨j, hzj, hzlt⟩, htagz⟩ := FreeChain_node hrest z hz
        simp only [VSLAB_START, v_slot_size] at hzj hzlt
        have hzx : z ≠ x := fun q => hxnotxs (q ▸ hz)
        exact hread (z + 8) (by omega) (by omega) (by omega)
    · simp only [ADDR_ESLAB_END, ADDR_EEMPTY_HEAD]
      rw [hread 16 (by omega) (by omega) (by omega),
        hread 24 (by omega) (by omega) (by omega)]
      refine FreeChain_transport hle ?_ ?_ (fun z _ hp => hp)
      · intro y hy
        obtain ⟨⟨j, hyj, hylt⟩, htagy⟩ := FreeChain_node hle y hy
        simp only [SPM_SIZE, e_slot_size] at hyj hylt
        exact hread y (by omega) (by omega) (by omega)
      · intro y hy
        obtain ⟨⟨j, hyj, hylt⟩, htagy⟩ := FreeChain_node hle y hy
        simp only [SPM_SIZE, e_slot_size] at hyj hylt
        exact hread (y + 8) (by omega) (by omega) (by omega)

/-- The invariant is preserved by the `load_vdata` slab-extension path. -/
theorem SpmInv_load_vdata_extend (s : SpmState) (t : Int) (h : SpmInv s)
    (hh : SPM2REG s ADDR_VEMPTY_HEAD = SPM_NULL)
    (hg : SPM2REG s ADDR_VSLAB_END + v_slot_size ≤
      SPM2REG s ADDR_ESLAB_END + e_slot_size) : SpmInv (load_vdata_extend s t) := by
  obtain ⟨⟨n, hn⟩, ⟨m, hm⟩, hslab, ⟨lv, hlvnd, hlv⟩, ⟨le, hlend, hle⟩⟩ := h
  simp only [ADDR_VSLAB_END, ADDR_VEMPTY_HEAD, ADDR_ESLAB_END, ADDR_EEMPTY_HEAD,
    VSLAB_START, SPM_SIZE, SPM_NULL, v_slot_size, e_slot_size]
    at hn hm hslab hlv hle hh hg
  have hstate : load_vdata_extend s t =
      REG2SPM (REG2SPM (REG2SPM s 0 (32 + 16 * (n : Int) + 16)) (32 + 16 * (n : Int)) t)
        (32 + 16 * (n : Int) + 8) (s.mem t) := by
    simp only [load_vdata_extend, internal_load_vdata, ADDR_VSLAB_END, v_slot_size]
    rw [hn]
    rfl
  have hread : ∀ b : Int, b ≠ 0 → b ≠ 32 + 16 * (n : Int) →
      b ≠ 32 + 16 * (n : Int) + 8 →
      SPM2REG (load_vdata_extend s t) b = SPM2REG s b := by
    intro b h1 h2 h3
    rw [hstate]
    simp only [SPM2REG_REG2SPM]
    rw [if_neg h3, if_neg h2, if_neg h1]
  have hv0 : SPM2REG (load_vdata_extend s t) 0 = 32 + 16 * (n : Int) + 16 := by
    rw [hstate]
    simp only [SPM2REG_REG2SPM]
    rw [if_neg (by omega), if_neg (by omega)]
    simp
  refine ⟨⟨n + 1, ?_⟩, ⟨m, ?_⟩, ?_, ⟨[], List.nodup_nil, ?_⟩, ⟨le, hlend, ?_⟩⟩
  · simp only [ADDR_VSLAB_END, VSLAB_START, v_slot_size]
    rw [hv0]
    push_cast
    ring
  · simp only [ADDR_ESLAB_END, SPM_SIZE, e_slot_size]
    rw [hread 16 (by omega) (by omega) (by omega)]
    exact hm
  · simp only [ADDR_VSLAB_END, ADDR_ESLAB_END, e_slot_size]
    rw [hv0, hread 16 (by omega) (by omega) (by omega)]
    omega
  · simp only [ADDR_VEMPTY_HEAD]
    have h8 : SPM2REG (load_vdata_extend s t) 8 = SPM2REG s 8 :=
      hread 8 (by omega) (by omega) (by omega)
    show SPM2REG (load_vdata_extend s t) 8 = SPM_NULL
    rw [h8, hh]
    rfl
  · simp only [ADDR_ESLAB_END, ADDR_EEMPTY_HEAD]
    rw [hread 16 (by omega) (by omega) (by omega),
      hread 24 (by omega) (by omega) (by omega)]
    refine FreeChain_transport hle ?_ ?_ (fun z _ hp => hp)
    · intro y hy
      obtain ⟨⟨j, hyj, hylt⟩, htagy⟩ := FreeChain_node hle y hy
      simp only [SPM_SIZE, e_slot_size] at hyj hylt
      exact hread y (by omega) (by omega) (by omega)
    · intro y hy
      obtain ⟨⟨j, hyj, hylt⟩, htagy⟩ := FreeChain_node hle y hy
      simp only [SPM_SIZE, e_slot_size] at hyj hylt
      exact hread (y + 8) (by omega) (by omega) (by omega)

/-- The invariant is preserved by the `load_edata` free-list fast path. -/
theorem SpmInv_load_edata_pop (s : SpmState) (t : Int) (h : SpmInv s)
    (hh : SPM2REG s ADDR_EEMPTY_HEAD ≠ SPM_NULL) : SpmInv (load_edata_pop s t) := by
  obtain ⟨⟨n, hn⟩, ⟨m, hm⟩, hslab, ⟨lv, hlvnd, hlv⟩, ⟨le, hlend, hle⟩⟩ := h
  simp only [ADDR_VSLAB_END, ADDR_VEMPTY_HEAD, ADDR_ESLAB_END, ADDR_EEMPTY_HEAD,
    VSLAB_START, SPM_SIZE, SPM_NULL, v_slot_size, e_slot_size] at hn hm hslab hlv hle hh
  cases le with
  | nil => exact absurd hle hh
  | cons x xs =>
    obtain ⟨hax, hPx, htagx, hrest⟩ := hle
    obtain ⟨i, hxi, hxlt⟩ := hPx
    simp only [SPM_SIZE, e_slot_size] at hxi hxlt
    have hxnotxs : x ∉ xs := (List.nodup_cons.mp hlend).1
    have hstate : load_edata_pop s t =
        REG2SPM (REG2SPM (REG2SPM s 24 (SPM2REG s (x + 8))) x t) (x + 8) (s.mem t) := by
      simp only [load_edata_pop, internal_load_edata, ADDR_EEMPTY_HEAD]
      rw [hax]
      rfl
    have hread : ∀ b : Int, b ≠ 24 → b ≠ x → b ≠ x + 8 →
        SPM2REG (load_edata_pop s t) b = SPM2REG s b := by
      intro b h1 h2 h3
      rw [hstate]
      simp only [SPM2REG_REG2SPM]
      rw [if_neg h3, if_neg h2, if_neg h1]
    have hv24 : SPM2REG (load_edata_pop s t) 24 = SPM2REG s (x + 8) := by
      rw [hstate]
      simp only [SPM2REG_REG2SPM]
      rw [if_neg (by omega), if_neg (by omega)]
      simp
    refine ⟨⟨n, ?_⟩, ⟨m, ?_⟩, ?_, ⟨lv, hlvnd, ?_⟩,
      ⟨xs, (List.nodup_cons.mp hlend).2, ?_⟩⟩
    · simp only [ADDR_VSLAB_END, VSLAB_START, v_slot_size]
      rw [hread 0 (by omega) (by omega) (by omega)]
      exact hn
    · simp only [ADDR_ESLAB_END, SPM_SIZE, e_slot_size]
      rw [hread 16 (by omega) (by omega) (by omega)]
      exact hm
    · simp only [ADDR_VSLAB_END, ADDR_ESLAB_END, e_slot_size]
      rw [hread 0 (by omega) (by omega) (by omega),
        hread 16 (by omega) (by omega) (by omega)]
      exact hslab
    · simp only [ADDR_VSLAB_END, ADDR_VEMPTY_HEAD]
      rw [hread 0 (by omega) (by omega) (by omega),
        hread 8 (by omega) (by omega) (by omega)]
      refine FreeChain_transport hlv ?_ ?_ (fun z _ hp => hp)
      · intro z hz
        obtain ⟨⟨j, hzj, hzlt⟩, htagz⟩ := FreeChain_node hlv z hz
        simp only [VSLAB_START, v_slot_size] at hzj hzlt
        exact hread z (by omega) (by omega) (by omega)
      · intro z hz
        obtain ⟨⟨j, hzj, hzlt⟩, htagz⟩ := FreeChain_node hlv z hz
        simp only [VSLAB_START, v_slot_size] at hzj hzlt
        exact hread (z + 8) (by omega) (by omega) (by omega)
    · simp only [ADDR_ESLAB_END, ADDR_EEMPTY_HEAD]
      rw [hread 16 (by omega) (by omega) (by omega), hv24]
      refine FreeChain_transport hrest ?_ ?_ (fun z _ hp => hp)
      · intro z hz
        obtain ⟨⟨j, hzj, hzlt⟩, htagz⟩ := FreeChain_node hrest z hz
        simp only [SPM_SIZE, e_slot_size] at hzj hzlt
        have hzx : z ≠ x := fun q => hxnotxs (q ▸ hz)
        exact hread z (by omega) hzx (by omega)
      · intro z hz
        obtain ⟨⟨j, hzj, hzlt⟩, htagz⟩ := FreeChain_node hrest z hz
        simp only [SPM_SIZE, e_slot_size] at hzj hzlt
        have hzx : z ≠ x := fun q => hxnotxs (q ▸ hz)
        exact hread (z + 8) (by omega) (by omega) (by omega)

/-- The invariant is preserved by the `load_edata` slab-extension path. -/
theorem SpmInv_load_edata_extend (s : SpmState) (t : Int) (h : SpmInv s)
    (hh : SPM2REG s ADDR_EEMPTY_HEAD = SPM_NULL)
    (hg : SPM2REG s ADDR_ESLAB_END - e_slot_size ≥ SPM2REG s ADDR_VSLAB_END) :
    SpmInv (load_edata_extend s t) := by
  obtain ⟨⟨n, hn⟩, ⟨m, hm⟩, hslab, ⟨lv, hlvnd, hlv⟩, ⟨le, hlend, hle⟩⟩ := h
  simp only [ADDR_VSLAB_END, ADDR_VEMPTY_HEAD, ADDR_ESLAB_END, ADDR_EEMPTY_HEAD,
    VSLAB_START, SPM_SIZE, SPM_NULL, v_slot_size, e_slot_size]
    at hn hm hslab hlv hle hh hg
  have hstate : load_edata_extend s t =
      REG2SPM (REG2SPM (REG2SPM s 16 (256 - 16 - 16 * (m : Int) - 16))
        (256 - 16 - 16 * (m : Int)) t) (256 - 16 - 16 * (m : Int) + 8) (s.mem t) := by
    simp only [load_edata_extend, internal_load_edata, ADDR_ESLAB_END, e_slot_size]
    rw [hm]
    rfl
  have hread : ∀ b : Int, b ≠ 16 → b ≠ 256 - 16 - 16 * (m : Int) →
      b ≠ 256 - 16 - 16 * (m : Int) + 8 →
      SPM2REG (load_edata_extend s t) b = SPM2REG s b := by
    intro b h1 h2 h3
    rw [hstate]
    simp only [SPM2REG_REG2SPM]
    rw [if_neg h3, if_neg h2, if_neg h1]
  have hv16 : SPM2REG (load_edata_extend s t) 16 = 256 - 16 - 16 * (m : Int) - 16 := by
    rw [hstate]
    simp only [SPM2REG_REG2SPM]
    rw [if_neg (by omega), if_neg (by omega)]
    simp
  refine ⟨⟨n, ?_⟩, ⟨m + 1, ?_⟩, ?_, ⟨lv, hlvnd, ?_⟩, ⟨[], List.nodup_nil, ?_⟩⟩
  · simp only [ADDR_VSLAB_END, VSLAB_START, v_slot_size]
    rw [hread 0 (by omega) (by omega) (by omega)]
    exact hn
  · simp only [ADDR_ESLAB_END, SPM_SIZE, e_slot_size]
    rw [hv16]
    push_cast
    ring
  · simp only [ADDR_VSLAB_END, ADDR_ESLAB_END, e_slot_size]
    rw [hv16, hread 0 (by omega) (by omega) (by omega)]
    omega
  · simp only [ADDR_VSLAB_END, ADDR_VEMPTY_HEAD]
    rw [hread 0 (by omega) (by omega) (by omega),
      hread 8 (by omega) (by omega) (by omega)]
    refine FreeChain_transport hlv ?_ ?_ ?_
    · intro z hz
      obtain ⟨⟨j, hzj, hzlt⟩, htagz⟩ := FreeChain_node hlv z hz
      simp only [VSLAB_START, v_slot_size] at hzj hzlt
      exact hread z (by omega) (by omega) (by omega)
    · intro z hz
      obtain ⟨⟨j, hzj, hzlt⟩, htagz⟩ := FreeChain_node hlv z hz
      simp only [VSLAB_START, v_slot_size] at hzj hzlt
      exact hread (z + 8) (by omega) (by omega) (by omega)
    · intro z hz hp
      obtain ⟨j, hzj, hzlt⟩ := hp
      exact ⟨j, hzj, hzlt⟩
  · simp only [ADDR_EEMPTY_HEAD]
    have h24 : SPM2REG (load_edata_extend s t) 24 = SPM2REG s 24 :=
      hread 24 (by omega) (by omega) (by omega)
    show SPM2REG (load_edata_extend s t) 24 = SPM_NULL
    rw [h24, hh]
    rfl

/-- The invariant is preserved by `remove_vdata` (both the shrink and the
free-list push branch; the store-back only touches main memory). -/
theorem SpmInv_remove_vdata (s : SpmState) (t : Int) (h : SpmInv s) :
    SpmInv (remove_vdata s t).2 := by
  by_cases hf : find_vdata s t = SPM_NULL
  · have hstate : (remove_vdata s t).2 = s := by
      simp [remove_vdata, hf]
    rw [hstate]
    exact h
  · obtain ⟨j, hrm, hrmlt, hrmtag, _⟩ := find_vdata_spec s t hf
    obtain ⟨⟨n, hn⟩, ⟨m, hm⟩, hslab, ⟨lv, hlvnd, hlv⟩, ⟨le, hlend, hle⟩⟩ := h
    simp only [ADDR_VSLAB_END, ADDR_VEMPTY_HEAD, ADDR_ESLAB_END, ADDR_EEMPTY_HEAD,
      VSLAB_START, SPM_SIZE, SPM_NULL, v_slot_size, e_slot_size]
      at hn hm hslab hlv hle hf hrm hrmlt hrmtag
    by_cases hsh : (32 + 16 * (j : Int)) + 16 = SPM2REG s 0
    · have hstate : (remove_vdata s t).2 =
          REG2SPM (SPM2MEM s t (32 + 16 * (j : Int) + 8)) 0 (32 + 16 * (j : Int)) := by
        simp only [remove_vdata, SPM2MEM_spm, ADDR_VSLAB_END, v_slot_size, SPM_NULL]
        rw [hrm]
        rw [if_neg (by omega), if_pos hsh]
      have hread : ∀ b : Int, b ≠ 0 →
          SPM2REG (remove_vdata s t).2 b = SPM2REG s b := by
        intro b h1
        rw [hstate]
        simp only [SPM2REG_REG2SPM, SPM2MEM_spm]
        rw [if_neg h1]
      have hv0 : SPM2REG (remove_vdata s t).2 0 = 32 + 16 * (j : Int) := by
        rw [hstate]
        simp only [SPM2REG_REG2SPM, SPM2MEM_spm]
        simp
      refine ⟨⟨j, ?_⟩, ⟨m, ?_⟩, ?_, ⟨lv, hlvnd, ?_⟩, ⟨le, hlend, ?_⟩⟩
      · simp only [ADDR_VSLAB_END, VSLAB_START, v_slot_size]
        rw [hv0]
      · simp only [ADDR_ESLAB_END, SPM_SIZE, e_slot_size]
        rw [hread 16 (by omega)]
        exact hm
      · simp only [ADDR_VSLAB_END, ADDR_ESLAB_END, e_slot_size]
        rw [hv0, hread 16 (by omega)]
        omega
      · simp only [ADDR_VSLAB_END, ADDR_VEMPTY_HEAD]
        rw [hv0, hread 8 (by omega)]
        refine FreeChain_transport hlv ?_ ?_ ?_
        · intro z hz
          obtain ⟨⟨k, hzk, hzlt⟩, htagz⟩ := FreeChain_node hlv z hz
          simp only [VSLAB_START, v_slot_size] at hzk hzlt
          exact hread z (by omega)
        · intro z hz
          obtain ⟨⟨k, hzk, hzlt⟩, htagz⟩ := FreeChain_node hlv z hz
          simp only [VSLAB_START, v_slot_size] at hzk hzlt
          exact hread (z + 8) (by omega)
        · intro z hz hp
          obtain ⟨⟨k, hzk, hzlt⟩, htagz⟩ := FreeChain_node hlv z hz
          simp only [VSLAB_START, v_slot_size] at hzk hzlt
          have hzrm : z ≠ 32 + 16 * (j : Int) := fun q => hrmtag (q ▸ htagz)
          obtain ⟨k', hzk', hzlt'⟩ := hp
          simp only [VSLAB_START, v_slot_size] at hzk' hzlt'
          exact ⟨k', by simp only [VSLAB_START, v_slot_size]; omega⟩
      · simp only [ADDR_ESLAB_END, ADDR_EEMPTY_HEAD]
        rw [hread 16 (by omega), hread 24 (by omega)]
        refine FreeChain_transport hle ?_ ?_ (fun z _ hp => hp)
        · intro y hy
          obtain ⟨⟨k, hyk, hylt⟩, htagy⟩ := FreeChain_node hle y hy
          simp only [SPM_SIZE, e_slot_size] at hyk hylt
          exact hread y (by omega)
        · intro y hy
          obtain ⟨⟨k, hyk, hylt⟩, htagy⟩ := FreeChain_node hle y hy
          simp only [SPM_SIZE, e_slot_size] at hyk hylt
          exact hread (y + 8) (by omega)
    · have hstate : (remove_vdata s t).2 =
          REG2SPM (REG2SPM (REG2SPM (SPM2MEM s t (32 + 16 * (j : Int) + 8))
            (32 + 16 * (j : Int)) 0) (32 + 16 * (j : Int) + 8) (SPM2REG s 8))
            8 (32 + 16 * (j : Int)) := by
        simp only [remove_vdata, SPM2MEM_spm, ADDR_VSLAB_END, ADDR_VEMPTY_HEAD,
          v_slot_size, SPM_NULL]
        rw [hrm]
        rw [if_neg (by omega), if_neg hsh]
      have hread : ∀ b : Int, b ≠ 8 → b ≠ 32 + 16 * (j : Int) →
          b ≠ 32 + 16 * (j : Int) + 8 →
          SPM2REG (remove_vdata s t).2 b = SPM2REG s b := by
        intro b h1 h2 h3
        rw [hstate]
        simp only [SPM2REG_REG2SPM, SPM2MEM_spm]
        rw [if_neg h1, if_neg h3, if_neg h2]
      have hv8 : SPM2REG (remove_vdata s t).2 8 = 32 + 16 * (j : Int) := by
        rw [hstate]
        simp only [SPM2REG_REG2SPM, SPM2MEM_spm]
        simp
      have htagrm : SPM2REG (remove_vdata s t).2 (32 + 16 * (j : Int)) = 0 := by
        rw [hstate]
        simp only [SPM2REG_REG2SPM, SPM2MEM_spm]
        rw [if_neg (by omega), if_neg (by omega)]
        simp
      have hlinkrm : SPM2REG (remove_vdata s t).2 (32 + 16 * (j : Int) + 8) =
          SPM2REG s 8 := by
        rw [hstate]
        simp only [SPM2REG_REG2SPM, SPM2MEM_spm]
        rw [if_neg (by omega)]
        simp
      have hrmnotlv : (32 + 16 * (j : Int)) ∉ lv := fun hz =>
        hrmtag ((FreeChain_node hlv _ hz).2)
      refine ⟨⟨n, ?_⟩, ⟨m, ?_⟩, ?_, ⟨((32 + 16 * (j : Int)) :: lv), ?_, ?_⟩,
        ⟨le, hlend, ?_⟩⟩
      · simp only [ADDR_VSLAB_END, VSLAB_START, v_slot_size]
        rw [hread 0 (by omega) (by omega) (by omega)]
        exact hn
      · simp only [ADDR_ESLAB_END, SPM_SIZE, e_slot_size]
        rw [hread 16 (by omega) (by omega) (by omega)]
        exact hm
      · simp only [ADDR_VSLAB_END, ADDR_ESLAB_END, e_slot_size]
        rw [hread 0 (by omega) (by omega) (by omega),
          hread 16 (by omega) (by omega) (by omega)]
        exact hslab
      · exact List.nodup_cons.mpr ⟨hrmnotlv, hlvnd⟩
      · simp only [ADDR_VSLAB_END, ADDR_VEMPTY_HEAD]
        rw [hread 0 (by omega) (by omega) (by omega)]
        refine ⟨hv8, ⟨j, ?_, ?_⟩, htagrm, ?_⟩
        · simp only [VSLAB_START, v_slot_size]
        · simp only [VSLAB_START, v_slot_size]
          omega
        · rw [hlinkrm]
          refine FreeChain_transport hlv ?_ ?_ (fun z _ hp => hp)
          · intro z hz
            obtain ⟨⟨k, hzk, hzlt⟩, htagz⟩ := FreeChain_node hlv z hz
            simp only [VSLAB_START, v_slot_size] at hzk hzlt
            have hzrm : z ≠ 32 + 16 * (j : Int) := fun q => hrmtag (q ▸ htagz)
            exact hread z (by omega) hzrm (by omega)
          · intro z hz
            obtain ⟨⟨k, hzk, hzlt⟩, htagz⟩ := FreeChain_node hlv z hz
            simp only [VSLAB_START, v_slot_size] at hzk hzlt
            have hzrm : z ≠ 32 + 16 * (j : Int) := fun q => hrmtag (q ▸ htagz)
            exact hread (z + 8) (by omega) (by omega) (by omega)
      · simp only [ADDR_ESLAB_END, ADDR_EEMPTY_HEAD]
        rw [hread 16 (by omega) (by omega) (by omega),
          hread 24 (by omega) (by omega) (by omega)]
        refine FreeChain_transport hle ?_ ?_ (fun z _ hp => hp)
        · intro y hy
          obtain ⟨⟨k, hyk, hylt⟩, htagy⟩ := FreeChain_node hle y hy
          simp only [SPM_SIZE, e_slot_size] at hyk hylt
          exact hread y (by omega) (by omega) (by omega)
        · intro y hy
          obtain ⟨⟨k, hyk, hylt⟩, htagy⟩ := FreeChain_node hle y hy
          simp only [SPM_SIZE, e_slot_size] at hyk hylt
          exact hread (y + 8) (by omega) (by omega) (by omega)

/-- The invariant is preserved by `remove_edata` (both branches; no
store-back is performed on this path). -/
theorem SpmInv_remove_edata (s : SpmState) (t : Int) (h : SpmInv s) :
    SpmInv (remove_edata s t).2 := by
  by_cases hf : find_edata s t = SPM_NULL
  · have hstate : (remove_edata s t).2 = s := by
      simp [remove_edata, hf]
    rw [hstate]
    exact h
  · obtain ⟨j, hrm, hrmlt, hrmtag, _⟩ := find_edata_spec s t hf
    obtain ⟨⟨n, hn⟩, ⟨m, hm⟩, hslab, ⟨lv, hlvnd, hlv⟩, ⟨le, hlend, hle⟩⟩ := h
    simp only [ADDR_VSLAB_END, ADDR_VEMPTY_HEAD, ADDR_ESLAB_END, ADDR_EEMPTY_HEAD,
      VSLAB_START, SPM_SIZE, SPM_NULL, v_slot_size, e_slot_size]
      at hn hm hslab hlv hle hf hrm hrmlt hrmtag
    by_cases hsh : (256 - 16 - 16 * (j : Int)) - 16 = SPM2REG s 16
    · have hstate : (remove_edata s t).2 =
          REG2SPM s 16 (256 - 16 - 16 * (j : Int)) := by
        simp only [remove_edata, ADDR_ESLAB_END, e_slot_size, SPM_NULL]
        rw [hrm]
        rw [if_neg (by omega), if_pos hsh]
      have hread : ∀ b : Int, b ≠ 16 →
          SPM2REG (remove_edata s t).2 b = SPM2REG s b := by
        intro b h1
        rw [hstate]
        simp only [SPM2REG_REG2SPM]
        rw [if_neg h1]
      have hv16 : SPM2REG (remove_edata s t).2 16 = 256 - 16 - 16 * (j : Int) := by
        rw [hstate]
        simp only [SPM2REG_REG2SPM]
        simp
      refine ⟨⟨n, ?_⟩, ⟨j, ?_⟩, ?_, ⟨lv, hlvnd, ?_⟩, ⟨le, hlend, ?_⟩⟩
      · simp only [ADDR_VSLAB_END, VSLAB_START, v_slot_size]
        rw [hread 0 (by omega)]
        exact hn
      · simp only [ADDR_ESLAB_END, SPM_SIZE, e_slot_size]
        rw [hv16]
      · simp only [ADDR_VSLAB_END, ADDR_ESLAB_END, e_slot_size]
        rw [hv16, hread 0 (by omega)]
        omega
      · simp only [ADDR_VSLAB_END, ADDR_VEMPTY_HEAD]
        rw [hread 0 (by omega), hread 8 (by omega)]
        refine FreeChain_transport hlv ?_ ?_ (fun z _ hp => hp)
        · intro z hz
          obtain ⟨⟨k, hzk, hzlt⟩, htagz⟩ := FreeChain_node hlv z hz
          simp only [VSLAB_START, v_slot_size] at hzk hzlt
          exact hread z (by omega)
        · intro z hz
          obtain ⟨⟨k, hzk, hzlt⟩, htagz⟩ := FreeChain_node hlv z hz
          simp only [VSLAB_START, v_slot_size] at hzk hzlt
          exact hread (z + 8) (by omega)
      · simp only [ADDR_ESLAB_END, ADDR_EEMPTY_HEAD]
        rw [hv16, hread 24 (by omega)]
        refine FreeChain_transport hle ?_ ?_ ?_
        · intro y hy
          obtain ⟨⟨k, hyk, hylt⟩, htagy⟩ := FreeChain_node hle y hy
          simp only [SPM_SIZE, e_slot_size] at hyk hylt
          exact hread y (by omega)
        · intro y hy
          obtain ⟨⟨k, hyk, hylt⟩, htagy⟩ := FreeChain_node hle y hy
          simp only [SPM_SIZE, e_slot_size] at hyk hylt
          exact hread (y + 8) (by omega)
        · intro y hy hp
          obtain ⟨⟨k, hyk, hylt⟩, htagy⟩ := FreeChain_node hle y hy
          simp only [SPM_SIZE, e_slot_size] at hyk hylt
          have hyrm : y ≠ 256 - 16 - 16 * (j : Int) := fun q => hrmtag (q ▸ htagy)
          obtain ⟨k', hyk', hylt'⟩ := hp
          simp only [SPM_SIZE, e_slot_size] at hyk' hylt'
          exact ⟨k', by simp only [SPM_SIZE, e_slot_size]; omega⟩
    · have hstate : (remove_edata s t).2 =
          REG2SPM (REG2SPM (REG2SPM s (256 - 16 - 16 * (j : Int)) 0)
            (256 - 16 - 16 * (j : Int) + 8) (SPM2REG s 24))
            24 (256 - 16 - 16 * (j : Int)) := by
        simp only [remove_edata, ADDR_ESLAB_END, ADDR_EEMPTY_HEAD, e_slot_size, SPM_NULL]
        rw [hrm]
        rw [if_neg (by omega), if_neg hsh]
      have hread : ∀ b : Int, b ≠ 24 → b ≠ 256 - 16 - 16 * (j : Int) →
          b ≠ 256 - 16 - 16 * (j : Int) + 8 →
          SPM2REG (remove_edata s t).2 b = SPM2REG s b := by
        intro b h1 h2 h3
        rw [hstate]
        simp only [SPM2REG_REG2SPM]
        rw [if_neg h1, if_neg h3, if_neg h2]
      have hrmge : (32 : Int) ≤ 256 - 16 - 16 * (j : Int) := by
        omega
      have hv24 : SPM2REG (remove_edata s t).2 24 = 256 - 16 - 16 * (j : Int) := by
        rw [hstate]
        simp only [SPM2REG_REG2SPM]
        simp
      have htagrm : SPM2REG (remove_edata s t).2 (256 - 16 - 16 * (j : Int)) = 0 := by
        rw [hstate]
        simp only [SPM2REG_REG2SPM]
        rw [if_neg (by omega), if_neg (by omega)]
        simp
      have hlinkrm : SPM2REG (remove_edata s t).2 (256 - 16 - 16 * (j : Int) + 8) =
          SPM2REG s 24 := by
        rw [hstate]
        simp only [SPM2REG_REG2SPM]
        rw [if_neg (by omega)]
        simp
      have hrmnotle : (256 - 16 - 16 * (j : Int)) ∉ le := fun hz =>
        hrmtag ((FreeChain_node hle _ hz).2)
      refine ⟨⟨n, ?_⟩, ⟨m, ?_⟩, ?_, ⟨lv, hlvnd, ?_⟩,
        ⟨((256 - 16 - 16 * (j : Int)) :: le), ?_, ?_⟩⟩
      · simp only [ADDR_VSLAB_END, VSLAB_START, v_slot_size]
        rw [hread 0 (by omega) (by omega) (by omega)]
        exact hn
      · simp only [ADDR_ESLAB_END, SPM_SIZE, e_slot_size]
        rw [hread 16 (by omega) (by omega) (by omega)]
        exact hm
      · simp only [ADDR_VSLAB_END, ADDR_ESLAB_END, e_slot_size]
        rw [hread 0 (by omega) (by omega) (by omega),
          hread 16 (by omega) (by omega) (by omega)]
        exact hslab
      · simp only [ADDR_VSLAB_END, ADDR_VEMPTY_HEAD]
        rw [hread 0 (by omega) (by omega) (by omega),
          hread 8 (by omega) (by omega) (by omega)]
        refine FreeChain_transport hlv ?_ ?_ (fun z _ hp => hp)
        · intro z hz
          obtain ⟨⟨k, hzk, hzlt⟩, htagz⟩ := FreeChain_node hlv z hz
          simp only [VSLAB_START, v_slot_size] at hzk hzlt
          exact hread z (by omega) (by omega) (by omega)
        · intro z hz
          obtain ⟨⟨k, hzk, hzlt⟩, htagz⟩ := FreeChain_node hlv z hz
          simp only [VSLAB_START, v_slot_size] at hzk hzlt
          exact hread (z + 8) (by omega) (by omega) (by omega)
      · exact List.nodup_cons.mpr ⟨hrmnotle, hlend⟩
      · simp only [ADDR_ESLAB_END, ADDR_EEMPTY_HEAD]
        rw [hread 16 (by omega) (by omega) (by omega)]
        refine ⟨hv24, ⟨j, ?_, ?_⟩, htagrm, ?_⟩
        · rfl
        · omega
        · rw [hlinkrm]
          refine FreeChain_transport hle ?_ ?_ (fun z _ hp => hp)
          · intro z hz
            obtain ⟨⟨k, hzk, hzlt⟩, htagz⟩ := FreeChain_node hle z hz
            simp only [SPM_SIZE, e_slot_size] at hzk hzlt
            have hzrm : z ≠ 256 - 16 - 16 * (j : Int) := fun q => hrmtag (q ▸ htagz)
            exact hread z (by omega) hzrm (by omega)
          · intro z hz
            obtain ⟨⟨k, hzk, hzlt⟩, htagz⟩ := FreeChain_node hle z hz
            simp only [SPM_SIZE, e_slot_size] at hzk hzlt
            have hzrm : z ≠ 256 - 16 - 16 * (j : Int) := fun q => hrmtag (q ▸ htagz)
            exact hread (z + 8) (by omega) (by omega) (by omega)

/-- The invariant is preserved by the edge-slab compaction path of
`load_vdata`: one edge slot is reclaimed (by relocation or free-list
splice), `eslab_end` rises by one slot and `vslab_end` grows into the
space it vacated. -/
theorem SpmInv_load_vdata_compact (s : SpmState) (t : Int) (h : SpmInv s)
    (hh : SPM2REG s ADDR_VEMPTY_HEAD = SPM_NULL)
    (hg : ¬(SPM2REG s ADDR_VSLAB_END + v_slot_size ≤
      SPM2REG s ADDR_ESLAB_END + e_slot_size))
    (hehd : SPM2REG s ADDR_EEMPTY_HEAD ≠ SPM_NULL) :
    SpmInv (load_vdata_compact s t) := by
  obtain ⟨⟨n, hn⟩, ⟨m, hm⟩, hslab, ⟨lv, hlvnd, hlv⟩, ⟨le, hlend, hle⟩⟩ := h
  simp only [ADDR_VSLAB_END, ADDR_VEMPTY_HEAD, ADDR_ESLAB_END, ADDR_EEMPTY_HEAD,
    VSLAB_START, SPM_SIZE, SPM_NULL, v_slot_size, e_slot_size]
    at hn hm hslab hlv hle hh hg hehd
  cases le with
  | nil => exact absurd hle hehd
  | cons x xs =>
    obtain ⟨hax, hPx, htagx, hrest⟩ := hle
    obtain ⟨i, hxi, hxlt⟩ := hPx
    simp only [SPM_SIZE, e_slot_size] at hxi hxlt
    have hxnotxs : x ∉ xs := (List.nodup_cons.mp hlend).1
    have hveq : SPM2REG s 0 = SPM2REG s 16 + 16 := by omega
    have hm1 : 1 ≤ m := by omega
    have hchx : FreeChain s (isESlot (SPM2REG s 16)) x (x :: xs) := by
      show x = x ∧ isESlot (SPM2REG s 16) x ∧ SPM2REG s x = SPM_NULL ∧
        FreeChain s (isESlot (SPM2REG s 16)) (SPM2REG s (x + 8)) xs
      refine ⟨rfl, ⟨i, ?_, ?_⟩, htagx, hrest⟩
      · rw [hxi]
        rfl
      · omega
    have hnodes : ∀ z ∈ x :: xs, isESlot (SPM2REG s 16) z ∧ SPM2REG s z = 0 :=
      fun z hz => FreeChain_node hchx z hz
    by_cases hmm0 : SPM2REG s (SPM2REG s 16 + 16) = 0
    · by_cases hhd : SPM2REG s 24 = SPM2REG s 16 + 16
      · -- A1: the last edge slot is the free-list head; the head is cleared
        have hstate : load_vdata_compact s t =
            REG2SPM (REG2SPM (REG2SPM (REG2SPM (REG2SPM s 24 0) 16
              (SPM2REG s 16 + 16)) 0 (SPM2REG s 0 + 16)) (SPM2REG s 0) t)
              (SPM2REG s 0 + 8) (s.mem t) := by
          simp only [load_vdata_compact, internal_load_vdata, ADDR_VSLAB_END,
            ADDR_VEMPTY_HEAD, ADDR_ESLAB_END, ADDR_EEMPTY_HEAD, v_slot_size,
            e_slot_size, SPM_NULL]
          rw [if_pos hmm0, if_pos hhd]
          rfl
        have hread : ∀ b : Int, b ≠ 24 → b ≠ 16 → b ≠ 0 → b ≠ SPM2REG s 0 →
            b ≠ SPM2REG s 0 + 8 →
            SPM2REG (load_vdata_compact s t) b = SPM2REG s b := by
          intro b h1 h2 h3 h4 h5
          rw [hstate]
          simp only [SPM2REG_REG2SPM]
          rw [if_neg h5, if_neg h4, if_neg h3, if_neg h2, if_neg h1]
        have hv0 : SPM2REG (load_vdata_compact s t) 0 = SPM2REG s 0 + 16 := by
          rw [hstate]
          simp only [SPM2REG_REG2SPM]
          rw [if_neg (by omega), if_neg (by omega)]
          simp
        have hv16 : SPM2REG (load_vdata_compact s t) 16 = SPM2REG s 16 + 16 := by
          rw [hstate]
          simp only [SPM2REG_REG2SPM]
          rw [if_neg (by omega), if_neg (by omega), if_neg (by omega)]
          simp
        have hv8 : SPM2REG (load_vdata_compact s t) 8 = SPM2REG s 8 := by
          rw [hstate]
          simp only [SPM2REG_REG2SPM]
          rw [if_neg (by omega), if_neg (by omega), if_neg (by omega),
            if_neg (by omega), if_neg (by omega)]
        have hv24 : SPM2REG (load_vdata_compact s t) 24 = 0 := by
          rw [hstate]
          simp only [SPM2REG_REG2SPM]
          rw [if_neg (by omega), if_neg (by omega), if_neg (by omega),
            if_neg (by omega)]
          simp
        refine ⟨⟨n + 1, ?_⟩, ⟨m - 1, ?_⟩, ?_, ⟨[], List.nodup_nil, ?_⟩,
          ⟨[], List.nodup_nil, ?_⟩⟩
        · simp only [ADDR_VSLAB_END, VSLAB_START, v_slot_size]
          rw [hv0]
          push_cast
          omega
        · simp only [ADDR_ESLAB_END, SPM_SIZE, e_slot_size]
          rw [hv16]
          push_cast
          omega
        · simp only [ADDR_VSLAB_END, ADDR_ESLAB_END, e_slot_size]
          rw [hv0, hv16]
          omega
        · simp only [ADDR_VEMPTY_HEAD]
          show SPM2REG (load_vdata_compact s t) 8 = SPM_NULL
          rw [hv8, hh]
          rfl
        · simp only [ADDR_EEMPTY_HEAD]
          show SPM2REG (load_vdata_compact s t) 24 = SPM_NULL
          rw [hv24]
          rfl
      · -- A2: the last edge slot is empty mid-list; splice it out
        have hLnz : SPM2REG s 16 + 16 ≠ (0 : Int) := by omega
        have hlen : (x :: xs).length ≤ 16 := by
          have h14 := eslot_nodup_length_le (SPM2REG s 16) (by omega) (x :: xs)
            hlend (fun z hz => (hnodes z hz).1)
          omega
        have hxL : x ≠ SPM2REG s 16 + 16 := by
          rw [← hax]
          exact hhd
        obtain ⟨l', hsub, hnd', hL', hch', hagree', hmem', hnfl'⟩ :=
          splice_spec s (SPM2REG s 16 + 16) (isESlot (SPM2REG s 16))
            (fun z hz => by
              obtain ⟨k, hzk, hzlt⟩ := hz
              simp only [SPM_SIZE, e_slot_size] at hzk
              simp only [SPM_NULL]
              omega)
            (fun z y hz hy => by
              obtain ⟨k, hzk, hzlt⟩ := hz
              obtain ⟨k', hyk, hylt⟩ := hy
              simp only [SPM_SIZE, e_slot_size] at hzk hyk
              omega)
            hLnz (x :: xs) 16 x hchx hlend hxL hlen
        have hstate : load_vdata_compact s t =
            REG2SPM (REG2SPM (REG2SPM
              (REG2SPM (splice_loop s (SPM2REG s 16 + 16) 16 x) 16
                (SPM2REG s 16 + 16)) 0 (SPM2REG s 0 + 16)) (SPM2REG s 0) t)
              (SPM2REG s 0 + 8) ((splice_loop s (SPM2REG s 16 + 16) 16 x).mem t) := by
          simp only [load_vdata_compact, internal_load_vdata, ADDR_VSLAB_END,
            ADDR_VEMPTY_HEAD, ADDR_ESLAB_END, ADDR_EEMPTY_HEAD, v_slot_size,
            e_slot_size, SPM_NULL]
          rw [if_pos hmm0, if_neg hhd, hax]
          rfl
        have hread : ∀ b : Int, b ≠ 16 → b ≠ 0 → b ≠ SPM2REG s 0 →
            b ≠ SPM2REG s 0 + 8 → (∀ z ∈ x :: xs, b ≠ z + 8) →
            SPM2REG (load_vdata_compact s t) b = SPM2REG s b := by
          intro b h2 h3 h4 h5 h6
          rw [hstate]
          simp only [SPM2REG_REG2SPM]
          rw [if_neg h5, if_neg h4, if_neg h3, if_neg h2]
          exact hagree' b h6
        have hzs8 : ∀ z ∈ x :: xs, (8 : Int) ≠ z + 8 := by
          intro z hz
          obtain ⟨⟨k, hzk, hzlt⟩, _⟩ := hnodes z hz
          simp only [SPM_SIZE, e_slot_size] at hzk
          omega
        have hzs24 : ∀ z ∈ x :: xs, (24 : Int) ≠ z + 8 := by
          intro z hz
          obtain ⟨⟨k, hzk, hzlt⟩, _⟩ := hnodes z hz
          simp only [SPM_SIZE, e_slot_size] at hzk
          omega
        have hv0 : SPM2REG (load_vdata_compact s t) 0 = SPM2REG s 0 + 16 := by
          rw [hstate]
          simp only [SPM2REG_REG2SPM]
          rw [if_neg (by omega), if_neg (by omega)]
          simp
        have hv16 : SPM2REG (load_vdata_compact s t) 16 = SPM2REG s 16 + 16 := by
          rw [hstate]
          simp only [SPM2REG_REG2SPM]
          rw [if_neg (by omega), if_neg (by omega), if_neg (by omega)]
          simp
        have hv8 : SPM2REG (load_vdata_compact s t) 8 = SPM2REG s 8 :=
          hread 8 (by omega) (by omega) (by omega) (by omega) hzs8
        have hv24 : SPM2REG (load_vdata_compact s t) 24 = x := by
          rw [hstate]
          simp only [SPM2REG_REG2SPM]
          rw [if_neg (by omega), if_neg (by omega), if_neg (by omega),
            if_neg (by omega)]
          rw [hagree' 24 hzs24]
          exact hax
        refine ⟨⟨n + 1, ?_⟩, ⟨m - 1, ?_⟩, ?_, ⟨[], List.nodup_nil, ?_⟩,
          ⟨l', hnd', ?_⟩⟩
        · simp only [ADDR_VSLAB_END, VSLAB_START, v_slot_size]
          rw [hv0]
          push_cast
          omega
        · simp only [ADDR_ESLAB_END, SPM_SIZE, e_slot_size]
          rw [hv16]
          push_cast
          omega
        · simp only [ADDR_VSLAB_END, ADDR_ESLAB_END, e_slot_size]
          rw [hv0, hv16]
          omega
        · simp only [ADDR_VEMPTY_HEAD]
          show SPM2REG (load_vdata_compact s t) 8 = SPM_NULL
          rw [hv8, hh]
          rfl
        · simp only [ADDR_ESLAB_END, ADDR_EEMPTY_HEAD]
          rw [hv16, hv24]
          have hhead' : x = x := rfl
          cases l' with
          | nil =>
            have hx0 : x = (0 : Int) := hch'
            exact absurd hx0 (by omega)
          | cons w ws =>
            obtain ⟨hxw, hPw, htagw, hrestw⟩ := hch'
            refine FreeChain_transport
              (⟨hxw, hPw, htagw, hrestw⟩ :
                FreeChain (splice_loop s (SPM2REG s 16 + 16) 16 x)
                  (isESlot (SPM2REG s 16)) x (w :: ws)) ?_ ?_ ?_
            · intro z hz
              have hzmem := hsub hz
              obtain ⟨⟨k, hzk, hzlt⟩, _⟩ := hnodes z hzmem
              simp only [SPM_SIZE, e_slot_size] at hzk
              have hzL : z ≠ SPM2REG s 16 + 16 := fun q => hL' (q ▸ hz)
              rw [hstate]
              simp only [SPM2REG_REG2SPM]
              rw [if_neg (by omega), if_neg (by omega), if_neg (by omega),
                if_neg (by omega)]
            · intro z hz
              have hzmem := hsub hz
              obtain ⟨⟨k, hzk, hzlt⟩, _⟩ := hnodes z hzmem
              simp only [SPM_SIZE, e_slot_size] at hzk
              have hzL : z ≠ SPM2REG s 16 + 16 := fun q => hL' (q ▸ hz)
              rw [hstate]
              simp only [SPM2REG_REG2SPM]
              rw [if_neg (by omega), if_neg (by omega), if_neg (by omega),
                if_neg (by omega)]
            · intro z hz hp
              have hzL : z ≠ SPM2REG s 16 + 16 := fun q => hL' (q ▸ hz)
              obtain ⟨k, hzk, hzlt⟩ := hp
              simp only [SPM_SIZE, e_slot_size] at hzk
              exact ⟨k, by simp only [SPM_SIZE, e_slot_size]; omega⟩
    · -- B: the last edge slot is live; relocate it into the popped head slot
      have hxL : x ≠ SPM2REG s 16 + 16 := by
        intro q
        rw [q] at htagx
        exact hmm0 htagx
      have hstate : load_vdata_compact s t =
          REG2SPM (REG2SPM (REG2SPM (REG2SPM (REG2SPM (REG2SPM (REG2SPM s 24
            (SPM2REG s (x + 8))) x (SPM2REG s (SPM2REG s 16 + 16)))
            (x + 8) (SPM2REG (REG2SPM s 24 (SPM2REG s (x + 8)))
              (SPM2REG s 16 + 16 + 8)))
            16 (SPM2REG s 16 + 16)) 0 (SPM2REG s 0 + 16)) (SPM2REG s 0) t)
            (SPM2REG s 0 + 8) (s.mem t) := by
        simp only [load_vdata_compact, internal_load_vdata, ADDR_VSLAB_END,
          ADDR_VEMPTY_HEAD, ADDR_ESLAB_END, ADDR_EEMPTY_HEAD, v_slot_size,
          e_slot_size, SPM_NULL]
        rw [if_neg hmm0, hax]
        rfl
      have hread : ∀ b : Int, b ≠ 24 → b ≠ x → b ≠ x + 8 → b ≠ 16 → b ≠ 0 →
          b ≠ SPM2REG s 0 → b ≠ SPM2REG s 0 + 8 →
          SPM2REG (load_vdata_compact s t) b = SPM2REG s b := by
        intro b h1 h2 h3 h4 h5 h6 h7
        rw [hstate]
        simp only [SPM2REG_REG2SPM]
        rw [if_neg h7, if_neg h6, if_neg h5, if_neg h4, if_neg h3, if_neg h2,
          if_neg h1]
      have hv0 : SPM2REG (load_vdata_compact s t) 0 = SPM2REG s 0 + 16 := by
        rw [hstate]
        simp only [SPM2REG_REG2SPM]
        rw [if_neg (by omega), if_neg (by omega)]
        simp
      have hv16 : SPM2REG (load_vdata_compact s t) 16 = SPM2REG s 16 + 16 := by
        rw [hstate]
        simp only [SPM2REG_REG2SPM]
        rw [if_neg (by omega), if_neg (by omega), if_neg (by omega)]
        simp
      have hv8 : SPM2REG (load_vdata_compact s t) 8 = SPM2REG s 8 :=
        hread 8 (by omega) (by omega) (by omega) (by omega) (by omega)
          (by omega) (by omega)
      have hv24 : SPM2REG (load_vdata_compact s t) 24 = SPM2REG s (x + 8) := by
        rw [hstate]
        simp only [SPM2REG_REG2SPM]
        rw [if_neg (by omega), if_neg (by omega), if_neg (by omega),
          if_neg (by omega), if_neg (by omega), if_neg (by omega)]
        simp
      refine ⟨⟨n + 1, ?_⟩, ⟨m - 1, ?_⟩, ?_, ⟨[], List.nodup_nil, ?_⟩,
        ⟨xs, (List.nodup_cons.mp hlend).2, ?_⟩⟩
      · simp only [ADDR_VSLAB_END, VSLAB_START, v_slot_size]
        rw [hv0]
        push_cast
        omega
      · simp only [ADDR_ESLAB_END, SPM_SIZE, e_slot_size]
        rw [hv16]
        push_cast
        omega
      · simp only [ADDR_VSLAB_END, ADDR_ESLAB_END, e_slot_size]
        rw [hv0, hv16]
        omega
      · simp only [ADDR_VEMPTY_HEAD]
        show SPM2REG (load_vdata_compact s t) 8 = SPM_NULL
        rw [hv8, hh]
        rfl
      · simp only [ADDR_ESLAB_END, ADDR_EEMPTY_HEAD]
        rw [hv16, hv24]
        refine FreeChain_transport hrest ?_ ?_ ?_
        · intro z hz
          obtain ⟨⟨k, hzk, hzlt⟩, htagz⟩ := hnodes z (List.mem_cons_of_mem _ hz)
          simp only [SPM_SIZE, e_slot_size] at hzk
          have hzx : z ≠ x := fun q => hxnotxs (q ▸ hz)
          have hzL : z ≠ SPM2REG s 16 + 16 := fun q => hmm0 (q ▸ htagz)
          exact hread z (by omega) hzx (by omega) (by omega) (by omega)
            (by omega) (by omega)
        · intro z hz
          obtain ⟨⟨k, hzk, hzlt⟩, htagz⟩ := hnodes z (List.mem_cons_of_mem _ hz)
          simp only [SPM_SIZE, e_slot_size] at hzk
          have hzx : z ≠ x := fun q => hxnotxs (q ▸ hz)
          have hzL : z ≠ SPM2REG s 16 + 16 := fun q => hmm0 (q ▸ htagz)
          exact hread (z + 8) (by omega) (by omega) (by omega) (by omega)
            (by omega) (by omega) (by omega)
        · intro z hz hp
          obtain ⟨⟨k, hzk, hzlt⟩, htagz⟩ := hnodes z (List.mem_cons_of_mem _ hz)
          simp only [SPM_SIZE, e_slot_size] at hzk
          have hzL : z ≠ SPM2REG s 16 + 16 := fun q => hmm0 (q ▸ htagz)
          obtain ⟨k', hzk', hzlt'⟩ := hp
          simp only [SPM_SIZE, e_slot_size] at hzk'
          exact ⟨k', by simp only [SPM_SIZE, e_slot_size]; omega⟩

/-- The invariant is preserved by the vertex-slab compaction path of
`load_edata`: one vertex slot is reclaimed, `vslab_end` drops by one slot
and `eslab_end` grows downward into the vacated space. -/
theorem SpmInv_load_edata_compact (s : SpmState) (t : Int) (h : SpmInv s)
    (hh : SPM2REG s ADDR_EEMPTY_HEAD = SPM_NULL)
    (hg : ¬(SPM2REG s ADDR_ESLAB_END - e_slot_size ≥ SPM2REG s ADDR_VSLAB_END))
    (hvhd : SPM2REG s ADDR_VEMPTY_HEAD ≠ SPM_NULL) :
    SpmInv (load_edata_compact s t) := by
  obtain ⟨⟨n, hn⟩, ⟨m, hm⟩, hslab, ⟨lv, hlvnd, hlv⟩, ⟨le, hlend, hle⟩⟩ := h
  simp only [ADDR_VSLAB_END, ADDR_VEMPTY_HEAD, ADDR_ESLAB_END, ADDR_EEMPTY_HEAD,
    VSLAB_START, SPM_SIZE, SPM_NULL, v_slot_size, e_slot_size]
    at hn hm hslab hlv hle hh hg hvhd
  cases lv with
  | nil => exact absurd hlv hvhd
  | cons x xs =>
    obtain ⟨hax, hPx, htagx, hrest⟩ := hlv
    obtain ⟨i, hxi, hxlt⟩ := hPx
    simp only [VSLAB_START, v_slot_size] at hxi hxlt
    have hxnotxs : x ∉ xs := (List.nodup_cons.mp hlvnd).1
    have hn1 : 1 ≤ n := by omega
    have hee32 : 32 ≤ SPM2REG s 16 := by omega
    have hchx : FreeChain s (isVSlot (SPM2REG s 0)) x (x :: xs) := by
      show x = x ∧ isVSlot (SPM2REG s 0) x ∧ SPM2REG s x = SPM_NULL ∧
        FreeChain s (isVSlot (SPM2REG s 0)) (SPM2REG s (x + 8)) xs
      refine ⟨rfl, ⟨i, ?_, ?_⟩, htagx, hrest⟩
      · rw [hxi]
        rfl
      · simp only [v_slot_size]
        omega
    have hnodes : ∀ z ∈ x :: xs, isVSlot (SPM2REG s 0) z ∧ SPM2REG s z = 0 :=
      fun z hz => FreeChain_node hchx z hz
    by_cases hmm0 : SPM2REG s (SPM2REG s 0 - 16) = 0
    · by_cases hhd : SPM2REG s 8 = SPM2REG s 0 - 16
      · -- A1: the last vertex slot is the free-list head; the head is cleared
        have heq : SPM2REG (REG2SPM (REG2SPM s 8 0) 0 (SPM2REG s 0 - 16)) 16 =
            SPM2REG s 16 := by
          simp only [SPM2REG_REG2SPM]
          rw [if_neg (by omega), if_neg (by omega)]
        have hstate : load_edata_compact s t =
            REG2SPM (REG2SPM (REG2SPM (REG2SPM (REG2SPM s 8 0) 0
              (SPM2REG s 0 - 16)) 16 (SPM2REG s 16 - 16)) (SPM2REG s 16) t)
              (SPM2REG s 16 + 8) (s.mem t) := by
          simp only [load_edata_compact, internal_load_edata, ADDR_VSLAB_END,
            ADDR_VEMPTY_HEAD, ADDR_ESLAB_END, ADDR_EEMPTY_HEAD, v_slot_size,
            e_slot_size, SPM_NULL]
          rw [if_pos hmm0, if_pos hhd, heq]
          rfl
        have hread : ∀ b : Int, b ≠ 8 → b ≠ 0 → b ≠ 16 → b ≠ SPM2REG s 16 →
            b ≠ SPM2REG s 16 + 8 →
            SPM2REG (load_edata_compact s t) b = SPM2REG s b := by
          intro b h1 h2 h3 h4 h5
          rw [hstate]
          simp only [SPM2REG_REG2SPM]
          rw [if_neg h5, if_neg h4, if_neg h3, if_neg h2, if_neg h1]
        have hv0 : SPM2REG (load_edata_compact s t) 0 = SPM2REG s 0 - 16 := by
          rw [hstate]
          simp only [SPM2REG_REG2SPM]
          rw [if_neg (by omega), if_neg (by omega), if_neg (by omega)]
          simp
        have hv16 : SPM2REG (load_edata_compact s t) 16 = SPM2REG s 16 - 16 := by
          rw [hstate]
          simp only [SPM2REG_REG2SPM]
          rw [if_neg (by omega), if_neg (by omega)]
          simp
        have hv8 : SPM2REG (load_edata_compact s t) 8 = 0 := by
          rw [hstate]
          simp only [SPM2REG_REG2SPM]
          rw [if_neg (by omega), if_neg (by omega), if_neg (by omega),
            if_neg (by omega)]
          simp
        have hv24 : SPM2REG (load_edata_compact s t) 24 = SPM2REG s 24 := by
          exact hread 24 (by omega) (by omega) (by omega) (by omega) (by omega)
        refine ⟨⟨n - 1, ?_⟩, ⟨m + 1, ?_⟩, ?_, ⟨[], List.nodup_nil, ?_⟩,
          ⟨[], List.nodup_nil, ?_⟩⟩
        · simp only [ADDR_VSLAB_END, VSLAB_START, v_slot_size]
          rw [hv0]
          omega
        · simp only [ADDR_ESLAB_END, SPM_SIZE, e_slot_size]
          rw [hv16]
          push_cast
          omega
        · simp only [ADDR_VSLAB_END, ADDR_ESLAB_END, e_slot_size]
          rw [hv0, hv16]
          omega
        · simp only [ADDR_VEMPTY_HEAD]
          show SPM2REG (load_edata_compact s t) 8 = SPM_NULL
          rw [hv8]
          rfl
        · simp only [ADDR_EEMPTY_HEAD]
          show SPM2REG (load_edata_compact s t) 24 = SPM_NULL
          rw [hv24, hh]
          rfl
      · -- A2: the last vertex slot is empty mid-list; splice it out
        have hLnz : SPM2REG s 0 - 16 ≠ (0 : Int) := by omega
        have hlen : (x :: xs).length ≤ 16 := by
          have h14 := vslot_nodup_length_le (SPM2REG s 0) (by omega) (x :: xs)
            hlvnd (fun z hz => (hnodes z hz).1)
          omega
        have hxL : x ≠ SPM2REG s 0 - 16 := by
          rw [← hax]
          exact hhd
        obtain ⟨l', hsub, hnd', hL', hch', hagree', hmem', hnfl'⟩ :=
          splice_spec s (SPM2REG s 0 - 16) (isVSlot (SPM2REG s 0))
            (fun z hz => by
              obtain ⟨k, hzk, hzlt⟩ := hz
              simp only [VSLAB_START, v_slot_size] at hzk hzlt
              simp only [SPM_NULL]
              omega)
            (fun z y hz hy => by
              obtain ⟨k, hzk, hzlt⟩ := hz
              obtain ⟨k', hyk, hylt⟩ := hy
              simp only [VSLAB_START, v_slot_size] at hzk hyk
              omega)
            hLnz (x :: xs) 16 x hchx hlvnd hxL hlen
        have hzs8 : ∀ z ∈ x :: xs, (8 : Int) ≠ z + 8 := by
          intro z hz
          obtain ⟨⟨k, hzk, hzlt⟩, _⟩ := hnodes z hz
          simp only [VSLAB_START, v_slot_size] at hzk hzlt
          omega
        have hzs16 : ∀ z ∈ x :: xs, (16 : Int) ≠ z + 8 := by
          intro z hz
          obtain ⟨⟨k, hzk, hzlt⟩, _⟩ := hnodes z hz
          simp only [VSLAB_START, v_slot_size] at hzk hzlt
          omega
        have heq : SPM2REG (REG2SPM (splice_loop s (SPM2REG s 0 - 16) 16 x) 0
            (SPM2REG s 0 - 16)) 16 = SPM2REG s 16 := by
          simp only [SPM2REG_REG2SPM]
          rw [if_neg (by omega)]
          exact hagree' 16 hzs16
        have hstate : load_edata_compact s t =
            REG2SPM (REG2SPM (REG2SPM
              (REG2SPM (splice_loop s (SPM2REG s 0 - 16) 16 x) 0
                (SPM2REG s 0 - 16)) 16 (SPM2REG s 16 - 16)) (SPM2REG s 16) t)
              (SPM2REG s 16 + 8)
              ((splice_loop s (SPM2REG s 0 - 16) 16 x).mem t) := by
          simp only [load_edata_compact, internal_load_edata, ADDR_VSLAB_END,
            ADDR_VEMPTY_HEAD, ADDR_ESLAB_END, ADDR_EEMPTY_HEAD, v_slot_size,
            e_slot_size, SPM_NULL]
          rw [if_pos hmm0, if_neg hhd, hax, heq]
          rfl
        have hread : ∀ b : Int, b ≠ 0 → b ≠ 16 → b ≠ SPM2REG s 16 →
            b ≠ SPM2REG s 16 + 8 → (∀ z ∈ x :: xs, b ≠ z + 8) →
            SPM2REG (load_edata_compact s t) b = SPM2REG s b := by
          intro b h2 h3 h4 h5 h6
          rw [hstate]
          simp only [SPM2REG_REG2SPM]
          rw [if_neg h5, if_neg h4, if_neg h3, if_neg h2]
          exact hagree' b h6
        have hv0 : SPM2REG (load_edata_compact s t) 0 = SPM2REG s 0 - 16 := by
          rw [hstate]
          simp only [SPM2REG_REG2SPM]
          rw [if_neg (by omega), if_neg (by omega), if_neg (by omega)]
          simp
        have hv16 : SPM2REG (load_edata_compact s t) 16 = SPM2REG s 16 - 16 := by
          rw [hstate]
          simp only [SPM2REG_REG2SPM]
          rw [if_neg (by omega), if_neg (by omega)]
          simp
        have hv8 : SPM2REG (load_edata_compact s t) 8 = x := by
          rw [hread 8 (by omega) (by omega) (by omega) (by omega) hzs8]
          exact hax
        have hv24 : SPM2REG (load_edata_compact s t) 24 = SPM2REG s 24 := by
          refine hread 24 (by omega) (by omega) (by omega) (by omega) ?_
          intro z hz
          obtain ⟨⟨k, hzk, hzlt⟩, _⟩ := hnodes z hz
          simp only [VSLAB_START, v_slot_size] at hzk hzlt
          omega
        refine ⟨⟨n - 1, ?_⟩, ⟨m + 1, ?_⟩, ?_, ⟨l', hnd', ?_⟩,
          ⟨[], List.nodup_nil, ?_⟩⟩
        · simp only [ADDR_VSLAB_END, VSLAB_START, v_slot_size]
          rw [hv0]
          omega
        · simp only [ADDR_ESLAB_END, SPM_SIZE, e_slot_size]
          rw [hv16]
          push_cast
          omega
        · simp only [ADDR_VSLAB_END, ADDR_ESLAB_END, e_slot_size]
          rw [hv0, hv16]
          omega
        · simp only [ADDR_VSLAB_END, ADDR_VEMPTY_HEAD]
          rw [hv0, hv8]
          cases l' with
          | nil =>
            have hx0 : x = (0 : Int) := hch'
            exact absurd hx0 (by omega)
          | cons w ws =>
            obtain ⟨hxw, hPw, htagw, hrestw⟩ := hch'
            refine FreeChain_transport
              (⟨hxw, hPw, htagw, hrestw⟩ :
                FreeChain (splice_loop s (SPM2REG s 0 - 16) 16 x)
                  (isVSlot (SPM2REG s 0)) x (w :: ws)) ?_ ?_ ?_
            · intro z hz
              have hzmem := hsub hz
              obtain ⟨⟨k, hzk, hzlt⟩, _⟩ := hnodes z hzmem
              simp only [VSLAB_START, v_slot_size] at hzk hzlt
              have hzL : z ≠ SPM2REG s 0 - 16 := fun q => hL' (q ▸ hz)
              rw [hstate]
              simp only [SPM2REG_REG2SPM]
              rw [if_neg (by omega), if_neg (by omega), if_neg (by omega),
                if_neg (by omega)]
            · intro z hz
              have hzmem := hsub hz
              obtain ⟨⟨k, hzk, hzlt⟩, _⟩ := hnodes z hzmem
              simp only [VSLAB_START, v_slot_size] at hzk hzlt
              have hzL : z ≠ SPM2REG s 0 - 16 := fun q => hL' (q ▸ hz)
              rw [hstate]
              simp only [SPM2REG_REG2SPM]
              rw [if_neg (by omega), if_neg (by omega), if_neg (by omega),
                if_neg (by omega)]
            · intro z hz hp
              have hzL : z ≠ SPM2REG s 0 - 16 := fun q => hL' (q ▸ hz)
              obtain ⟨k, hzk, hzlt⟩ := hp
              simp only [VSLAB_START, v_slot_size] at hzk hzlt
              exact ⟨k, by simp only [VSLAB_START, v_slot_size]; omega⟩
        · simp only [ADDR_EEMPTY_HEAD]
          show SPM2REG (load_edata_compact s t) 24 = SPM_NULL
          rw [hv24, hh]
          rfl
    · -- B: the last vertex slot is live; relocate it into the popped head slot
      have hxL : x ≠ SPM2REG s 0 - 16 := by
        intro q
        rw [q] at htagx
        exact hmm0 htagx
      have heq : SPM2REG (REG2SPM (REG2SPM (REG2SPM (REG2SPM s 8
          (SPM2REG s (x + 8))) x (SPM2REG s (SPM2REG s 0 - 16)))
          (x + 8) (SPM2REG (REG2SPM s 8 (SPM2REG s (x + 8)))
            (SPM2REG s 0 - 16 + 8))) 0 (SPM2REG s 0 - 16)) 16 =
          SPM2REG s 16 := by
        simp only [SPM2REG_REG2SPM]
        rw [if_neg (by omega), if_neg (by omega), if_neg (by omega),
          if_neg (by omega)]
      have hstate : load_edata_compact s t =
          REG2SPM (REG2SPM (REG2SPM (REG2SPM (REG2SPM (REG2SPM
            (REG2SPM s 8 (SPM2REG s (x + 8))) x (SPM2REG s (SPM2REG s 0 - 16)))
            (x + 8) (SPM2REG (REG2SPM s 8 (SPM2REG s (x + 8)))
              (SPM2REG s 0 - 16 + 8)))
            0 (SPM2REG s 0 - 16)) 16 (SPM2REG s 16 - 16)) (SPM2REG s 16) t)
            (SPM2REG s 16 + 8) (s.mem t) := by
        simp only [load_edata_compact, internal_load_edata, ADDR_VSLAB_END,
          ADDR_VEMPTY_HEAD, ADDR_ESLAB_END, ADDR_EEMPTY_HEAD, v_slot_size,
          e_slot_size, SPM_NULL]
        rw [if_neg hmm0, hax, heq]
        rfl
      have hread : ∀ b : Int, b ≠ 8 → b ≠ x → b ≠ x + 8 → b ≠ 0 → b ≠ 16 →
          b ≠ SPM2REG s 16 → b ≠ SPM2REG s 16 + 8 →
          SPM2REG (load_edata_compact s t) b = SPM2REG s b := by
        intro b h1 h2 h3 h4 h5 h6 h7
        rw [hstate]
        simp only [SPM2REG_REG2SPM]
        rw [if_neg h7, if_neg h6, if_neg h5, if_neg h4, if_neg h3, if_neg h2,
          if_neg h1]
      have hv0 : SPM2REG (load_edata_compact s t) 0 = SPM2REG s 0 - 16 := by
        rw [hstate]
        simp only [SPM2REG_REG2SPM]
        rw [if_neg (by omega), if_neg (by omega), if_neg (by omega)]
        simp
      have hv16 : SPM2REG (load_edata_compact s t) 16 = SPM2REG s 16 - 16 := by
        rw [hstate]
        simp only [SPM2REG_REG2SPM]
        rw [if_neg (by omega), if_neg (by omega)]
        simp
      have hv8 : SPM2REG (load_edata_compact s t) 8 = SPM2REG s (x + 8) := by
        rw [hstate]
        simp only [SPM2REG_REG2SPM]
        rw [if_neg (by omega), if_neg (by omega), if_neg (by omega),
          if_neg (by omega), if_neg (by omega), if_neg (by omega)]
        simp
      have hv24 : SPM2REG (load_edata_compact s t) 24 = SPM2REG s 24 :=
        hread 24 (by omega) (by omega) (by omega) (by omega) (by omega)
          (by omega) (by omega)
      refine ⟨⟨n - 1, ?_⟩, ⟨m + 1, ?_⟩, ?_, ⟨xs, (List.nodup_cons.mp hlvnd).2, ?_⟩,
        ⟨[], List.nodup_nil, ?_⟩⟩
      · simp only [ADDR_VSLAB_END, VSLAB_START, v_slot_size]
        rw [hv0]
        omega
      · simp only [ADDR_ESLAB_END, SPM_SIZE, e_slot_size]
        rw [hv16]
        push_cast
        omega
      · simp only [ADDR_VSLAB_END, ADDR_ESLAB_END, e_slot_size]
        rw [hv0, hv16]
        omega
      · simp only [ADDR_VSLAB_END, ADDR_VEMPTY_HEAD]
        rw [hv0, hv8]
        refine FreeChain_transport hrest ?_ ?_ ?_
        · intro z hz
          obtain ⟨⟨k, hzk, hzlt⟩, htagz⟩ := hnodes z (List.mem_cons_of_mem _ hz)
          simp only [VSLAB_START, v_slot_size] at hzk hzlt
          have hzx : z ≠ x := fun q => hxnotxs (q ▸ hz)
          have hzL : z ≠ SPM2REG s 0 - 16 := fun q => hmm0 (q ▸ htagz)
          exact hread z (by omega) hzx (by omega) (by omega) (by omega)
            (by omega) (by omega)
        · intro z hz
          obtain ⟨⟨k, hzk, hzlt⟩, htagz⟩ := hnodes z (List.mem_cons_of_mem _ hz)
          simp only [VSLAB_START, v_slot_size] at hzk hzlt
          have hzx : z ≠ x := fun q => hxnotxs (q ▸ hz)
          have hzL : z ≠ SPM2REG s 0 - 16 := fun q => hmm0 (q ▸ htagz)
          exact hread (z + 8) (by omega) (by omega) (by omega) (by omega)
            (by omega) (by omega) (by omega)
        · intro z hz hp
          obtain ⟨⟨k, hzk, hzlt⟩, htagz⟩ := hnodes z (List.mem_cons_of_mem _ hz)
          simp only [VSLAB_START, v_slot_size] at hzk hzlt
          have hzL : z ≠ SPM2REG s 0 - 16 := fun q => hmm0 (q ▸ htagz)
          obtain ⟨k', hzk', hzlt'⟩ := hp
          simp only [VSLAB_START, v_slot_size] at hzk' hzlt'
          exact ⟨k', by simp only [VSLAB_START, v_slot_size]; omega⟩
      · simp only [ADDR_EEMPTY_HEAD]
        show SPM2REG (load_edata_compact s t) 24 = SPM_NULL
        rw [hv24, hh]
        rfl

/-- `load_vdata` preserves the slab invariant on every path. -/
theorem SpmInv_load_vdata (s : SpmState) (t : Int) (h : SpmInv s) :
    SpmInv (load_vdata s t).2 := by
  rw [load_vdata]
  split_ifs with h1 h2 h3 h4
  · exact h
  · exact SpmInv_load_vdata_pop s t h h2
  · exact SpmInv_load_vdata_extend s t h (not_not.mp h2) h3
  · exact SpmInv_load_vdata_compact s t h (not_not.mp h2) h3 h4
  · refine SpmInv_congr ?_ h
    rfl

/-- `load_edata` preserves the slab invariant on every path. -/
theorem SpmInv_load_edata (s : SpmState) (t : Int) (h : SpmInv s) :
    SpmInv (load_edata s t).2 := by
  rw [load_edata]
  split_ifs with h1 h2 h3
  · exact SpmInv_load_edata_pop s t h h1
  · exact SpmInv_load_edata_extend s t h (not_not.mp h1) h2
  · exact SpmInv_load_edata_compact s t h (not_not.mp h1) h2 h3
  · refine SpmInv_congr ?_ h
    rfl

/-- The four SPM manager operations, as they appear in an execution
history (the tag identifies the datum being loaded or evicted). -/
inductive SpmOp where
  | loadV (t : Int)
  | loadE (t : Int)
  | removeV (t : Int)
  | removeE (t : Int)

/-- Apply one SPM manager operation, ignoring the success flag (callers
tolerate misses). -/
def spm_apply (s : SpmState) : SpmOp → SpmState
  | .loadV t => (load_vdata s t).2
  | .loadE t => (load_edata s t).2
  | .removeV t => (remove_vdata s t).2
  | .removeE t => (remove_edata s t).2

/-- Run a sequence of SPM manager operations. -/
def spm_run (s : SpmState) (ops : List SpmOp) : SpmState :=
  ops.foldl spm_apply s

/-- Every single SPM manager operation preserves the slab invariant. -/
theorem SpmInv_apply (s : SpmState) (op : SpmOp) (h : SpmInv s) :
    SpmInv (spm_apply s op) := by
  cases op with
  | loadV t => exact SpmInv_load_vdata s t h
  | loadE t => exact SpmInv_load_edata s t h
  | removeV t => exact SpmInv_remove_vdata s t h
  | removeE t => exact SpmInv_remove_edata s t h

/-- The freshly constructed SPM state satisfies the invariant: both
slabs empty, both free lists null. -/
theorem SpmInv_spm_init (base : SpmState) : SpmInv (spm_init base) := by
  refine ⟨⟨0, ?_⟩, ⟨0, ?_⟩, ?_, ⟨[], List.nodup_nil, ?_⟩, ⟨[], List.nodup_nil, ?_⟩⟩
  · simp [spm_init, SPM2REG_REG2SPM, ADDR_VSLAB_END, ADDR_VEMPTY_HEAD,
      ADDR_ESLAB_END, ADDR_EEMPTY_HEAD, VSLAB_START, v_slot_size]
  · simp [spm_init, SPM2REG_REG2SPM, ADDR_VSLAB_END, ADDR_VEMPTY_HEAD,
      ADDR_ESLAB_END, ADDR_EEMPTY_HEAD, SPM_SIZE, e_slot_size]
  · simp [spm_init, SPM2REG_REG2SPM, ADDR_VSLAB_END, ADDR_VEMPTY_HEAD,
      ADDR_ESLAB_END, ADDR_EEMPTY_HEAD, VSLAB_START, SPM_SIZE, e_slot_size]
  · show SPM2REG (spm_init base) ADDR_VEMPTY_HEAD = SPM_NULL
    simp [spm_init, SPM2REG_REG2SPM, ADDR_VSLAB_END, ADDR_VEMPTY_HEAD,
      ADDR_ESLAB_END, ADDR_EEMPTY_HEAD, SPM_NULL]
  · show SPM2REG (spm_init base) ADDR_EEMPTY_HEAD = SPM_NULL
    simp [spm_init, SPM2REG_REG2SPM, ADDR_EEMPTY_HEAD, SPM_NULL]

/-- The slab invariant holds after any sequence of SPM manager
operations from any invariant state. -/
theorem SpmInv_run (ops : List SpmOp) :
    ∀ s : SpmState, SpmInv s → SpmInv (spm_run s ops) := by
  induction ops with
  | nil => intro s h; exact h
  | cons op ops ih =>
    intro s h
    exact ih (spm_apply s op) (SpmInv_apply s op h)

/-- C7: starting from the freshly constructed SPM state, every sequence
of `load_vdata`, `load_edata`, `remove_vdata` and `remove_edata`
operations — including the compaction paths — preserves
`vslab_end ≤ eslab_end + e_slot_size`: the vertex slab never grows past
the uppermost edge slot. -/
theorem spm_slabs_never_collide (base : SpmState) (ops : List SpmOp) :
    SPM2REG (spm_run (spm_init base) ops) ADDR_VSLAB_END ≤
      SPM2REG (spm_run (spm_init base) ops) ADDR_ESLAB_END + e_slot_size :=
  (SpmInv_run ops (spm_init base) (SpmInv_spm_init base)).slabs

end GasFramework
